import Mathlib

/-!
# Verification of the batch-result reconciliation and merge subsystem

Shallow embedding of the reconciliation/merge core of the repository:

* `Datasets/BatchCreator/batchesWithInput/merged_results.py` (`BatchResultsMerger`)
* `Datasets/Final/InstructionOutput/mismatch.py` (`FileEntriesMismatchFinder`)
* `Datasets/Final/InstructionOutput/instructOutput.py` (`InstructionOutputMerger`)
* `Datasets/BatchCreator/batchesWithInput/batch_processWithInput.py` (`custom_id` construction)

Strings are modelled as `List Char` internally (Lean `String` at the API
surface), Python `int` line numbers as `Nat` (they arise from `\d+` digit
runs, hence non-negative), Python `set` as `Finset Nat`, and Python `dict`
as an insertion-ordered association list with replace-on-assign semantics,
which is exactly the observable behaviour of CPython dicts.
-/

namespace Polyglot

/-! ## Python character classes and string primitives -/

/-- The characters matched by Python's `\s` (ASCII range) and stripped by
`str.strip()` for the ASCII inputs this pipeline handles. -/
def pySpace (c : Char) : Bool :=
  c = ' ' || c = '\t' || c = '\n' || c = '\r' || c = '\x0b' || c = '\x0c'

/-- ASCII decimal digit, Python regex `\d` (ASCII range). -/
def asciiDigit (c : Char) : Bool :=
  '0' ≤ c && c ≤ '9'

/-- `str.strip()` on a character list: drop leading and trailing whitespace. -/
def pyStripL (l : List Char) : List Char :=
  ((l.dropWhile pySpace).reverse.dropWhile pySpace).reverse

/-- `str.strip()` at the `String` level. -/
def pyStrip (s : String) : String :=
  ⟨pyStripL s.data⟩

/-- The numeric value of a decimal digit run, as computed by Python `int(...)`
on a string of digits (fold most-significant first). -/
def digitsVal (l : List Char) : Nat :=
  l.foldl (fun a c => 10 * a + (c.toNat - 48)) 0

/-- Decimal rendering of a natural number (recursion-friendly form used in
proofs; `natToDigits` below is the kernel-reducible form). -/
def natDigitsRec (n : Nat) : List Char :=
  if h : n < 10 then [Char.ofNat (48 + n)]
  else natDigitsRec (n / 10) ++ [Char.ofNat (48 + n % 10)]
decreasing_by exact Nat.div_lt_self (Nat.lt_of_lt_of_le (by omega) (Nat.le_refl n)) (by omega)

/-- Fuel-driven accumulator form of the decimal rendering (structural
recursion, so concrete identifiers evaluate inside the kernel). -/
def natToDigitsAux : Nat → Nat → List Char → List Char
  | 0, _, acc => acc
  | fuel + 1, n, acc =>
    if n < 10 then Char.ofNat (48 + n) :: acc
    else natToDigitsAux fuel (n / 10) (Char.ofNat (48 + n % 10) :: acc)

/-- Decimal rendering of a natural number, as produced by a Python f-string
`f"...{n}"` for a non-negative `int`. -/
def natToDigits (n : Nat) : List Char :=
  natToDigitsAux (n + 1) n []

theorem natToDigitsAux_eq : ∀ (fuel n : Nat) (acc : List Char), n < fuel →
    natToDigitsAux fuel n acc = natDigitsRec n ++ acc := by
  intro fuel
  induction fuel with
  | zero => intro n acc h; omega
  | succ f ih =>
    intro n acc h
    rw [natToDigitsAux, natDigitsRec]
    by_cases h10 : n < 10
    · simp [h10]
    · rw [if_neg h10, dif_neg h10]
      have hdiv : n / 10 < n := Nat.div_lt_self (by omega) (by omega)
      rw [ih (n / 10) _ (by omega)]
      simp

theorem natToDigits_eq_rec (n : Nat) : natToDigits n = natDigitsRec n := by
  rw [natToDigits, natToDigitsAux_eq (n + 1) n [] (by omega), List.append_nil]

/-- Maximal run of trailing ASCII digits of a string. -/
def trailingDigits (l : List Char) : List Char :=
  (l.reverse.takeWhile asciiDigit).reverse

/-- The string with its maximal trailing digit run removed. -/
def stripTrailingDigits (l : List Char) : List Char :=
  (l.reverse.dropWhile asciiDigit).reverse

/-! ## Identifier codec

`batch_processWithInput.py` line 246 builds
`custom_id = f"{original_safe_name}_{field_name}_line_{global_idx}"`.

`merged_results.py` (`extract_line_number_from_custom_id`, lines 87-96) decodes
with the single pattern `re.search(r'_line_(\d+)$', custom_id)`;
`mismatch.py` (lines 88-106) tries, in order, the patterns
`_line_(\d+)$`, `alpaca_data_line_(\d+)$`, `line_(\d+)$`, `data_line_(\d+)$`.

For a pattern of the shape `LIT(\d+)$` whose literal `LIT` ends in a
non-digit character (`'_'` here), `re.search` succeeds on `s` iff `s` ends
with `LIT` followed by at least one digit, and the captured group is then
exactly the maximal trailing digit run of `s` (a shorter trailing run would
have to be preceded by a digit, contradicting `LIT` ending in `'_'`; a longer
one cannot exist by maximality).  `reSearchTailPat` implements that
characterisation directly.  (Python's `$` would additionally match just
before a final `'\n'`; identifiers here are JSON field values without
trailing newlines, so that corner is outside the modelled domain.) -/

/-- Model of `re.search(r'LIT(\d+)$', s)` returning `int(group(1))`, for a
literal `LIT` ending in a non-digit. -/
def reSearchTailPat (pat : List Char) (s : List Char) : Option Nat :=
  if !(trailingDigits s).isEmpty && pat.isSuffixOf (stripTrailingDigits s) then
    some (digitsVal (trailingDigits s))
  else
    none

namespace MergedResults

/-- `BatchResultsMerger.extract_line_number_from_custom_id`
(`merged_results.py` lines 87-96): single pattern `_line_(\d+)$`. -/
def extract_line_number_from_custom_id (custom_id : String) : Option Nat :=
  reSearchTailPat "_line_".data custom_id.data

end MergedResults

namespace Mismatch

/-- `FileEntriesMismatchFinder.extract_line_number_from_custom_id`
(`mismatch.py` lines 88-106): patterns tried in order
`_line_(\d+)$`, `alpaca_data_line_(\d+)$`, `line_(\d+)$`, `data_line_(\d+)$`;
the first match wins. -/
def extract_line_number_from_custom_id (custom_id : String) : Option Nat :=
  match reSearchTailPat "_line_".data custom_id.data with
  | some n => some n
  | none =>
    match reSearchTailPat "alpaca_data_line_".data custom_id.data with
    | some n => some n
    | none =>
      match reSearchTailPat "line_".data custom_id.data with
      | some n => some n
      | none => reSearchTailPat "data_line_".data custom_id.data

end Mismatch

/-- `custom_id = f"{original_safe_name}_{field_name}_line_{global_idx}"`
(`batch_processWithInput.py` line 246). -/
def custom_id (namespace_tag field_name : String) (global_idx : Nat) : String :=
  ⟨namespace_tag.data ++ '_' :: field_name.data ++ "_line_".data ++ natToDigits global_idx⟩

/-! ### Digit-run facts used for the codec round trip -/

theorem toNat_digitChar (d : Nat) (h : d < 10) : (Char.ofNat (48 + d)).toNat = 48 + d := by
  have hv : (48 + d).isValidChar := Or.inl (by omega)
  simp [Char.ofNat, hv, Char.ofNatAux, Char.toNat, UInt32.toNat, BitVec.toNat_ofNatLt]

theorem asciiDigit_digitChar (d : Nat) (h : d < 10) :
    asciiDigit (Char.ofNat (48 + d)) = true := by
  have hv : (48 + d).isValidChar := Or.inl (by omega)
  simp [asciiDigit, Char.le_def, Char.ofNat, hv, Char.ofNatAux, UInt32.le_def, BitVec.le_def]
  omega

theorem natDigitsRec_all_digits (n : Nat) :
    ∀ c ∈ natDigitsRec n, asciiDigit c = true := by
  induction n using Nat.strong_induction_on with
  | _ n ih =>
    intro c hc
    rw [natDigitsRec] at hc
    by_cases h : n < 10
    · simp only [dif_pos h, List.mem_singleton] at hc
      subst hc
      exact asciiDigit_digitChar n h
    · simp only [dif_neg h] at hc
      rcases List.mem_append.mp hc with h1 | h2
      · exact ih (n / 10) (Nat.div_lt_self (by omega) (by omega)) c h1
      · simp only [List.mem_singleton] at h2
        subst h2
        exact asciiDigit_digitChar (n % 10) (Nat.mod_lt _ (by omega))

theorem natToDigits_all_digits (n : Nat) :
    ∀ c ∈ natToDigits n, asciiDigit c = true := by
  rw [natToDigits_eq_rec]
  exact natDigitsRec_all_digits n

theorem natToDigits_ne_nil (n : Nat) : natToDigits n ≠ [] := by
  rw [natToDigits_eq_rec, natDigitsRec]
  by_cases h : n < 10 <;> simp [h]

theorem digitsVal_append (l1 l2 : List Char) :
    digitsVal (l1 ++ l2) =
      l2.foldl (fun a c => 10 * a + (c.toNat - 48)) (digitsVal l1) := by
  simp [digitsVal, List.foldl_append]

theorem digitsVal_natDigitsRec (n : Nat) : digitsVal (natDigitsRec n) = n := by
  induction n using Nat.strong_induction_on with
  | _ n ih =>
    rw [natDigitsRec]
    by_cases h : n < 10
    · simp only [dif_pos h, digitsVal, List.foldl_cons, List.foldl_nil]
      rw [toNat_digitChar n h]
      omega
    · have hd : n / 10 < n := Nat.div_lt_self (by omega) (by omega)
      simp only [dif_neg h, digitsVal_append]
      rw [ih (n / 10) hd]
      simp only [List.foldl_cons, List.foldl_nil]
      rw [toNat_digitChar (n % 10) (Nat.mod_lt _ (by omega))]
      omega

theorem digitsVal_natToDigits (n : Nat) : digitsVal (natToDigits n) = n := by
  rw [natToDigits_eq_rec]
  exact digitsVal_natDigitsRec n

theorem takeWhile_append_of_all {p : Char → Bool} {l1 l2 : List Char}
    (h : ∀ c ∈ l1, p c = true) :
    (l1 ++ l2).takeWhile p = l1 ++ l2.takeWhile p := by
  induction l1 with
  | nil => simp
  | cons a t ih =>
    simp only [List.cons_append, List.takeWhile_cons, h a (List.mem_cons_self a t), if_true]
    rw [ih fun c hc => h c (List.mem_cons_of_mem a hc)]

theorem dropWhile_append_of_all {p : Char → Bool} {l1 l2 : List Char}
    (h : ∀ c ∈ l1, p c = true) :
    (l1 ++ l2).dropWhile p = l2.dropWhile p := by
  induction l1 with
  | nil => simp
  | cons a t ih =>
    simp only [List.cons_append, List.dropWhile_cons, h a (List.mem_cons_self a t), if_true]
    exact ih fun c hc => h c (List.mem_cons_of_mem a hc)

theorem trailingDigits_append_digits {x d : List Char}
    (hx : ∀ a, x.getLast? = some a → asciiDigit a = false)
    (hd : ∀ c ∈ d, asciiDigit c = true) :
    trailingDigits (x ++ d) = d := by
  unfold trailingDigits
  rw [List.reverse_append]
  rw [takeWhile_append_of_all (by intro c hc; exact hd c (List.mem_reverse.mp hc))]
  cases hx' : x.reverse with
  | nil => simp
  | cons a t =>
    have ha : asciiDigit a = false := by
      refine hx a ?_
      rw [← List.head?_reverse, hx']
      rfl
    simp [List.takeWhile_cons, ha]

theorem stripTrailingDigits_append_digits {x d : List Char}
    (hx : ∀ a, x.getLast? = some a → asciiDigit a = false)
    (hd : ∀ c ∈ d, asciiDigit c = true) :
    stripTrailingDigits (x ++ d) = x := by
  unfold stripTrailingDigits
  rw [List.reverse_append]
  rw [dropWhile_append_of_all (by intro c hc; exact hd c (List.mem_reverse.mp hc))]
  cases hx' : x.reverse with
  | nil =>
    have hxe : x = [] := by
      have := congrArg List.reverse hx'
      simp at this
      exact this
    simp [hx', hxe]
  | cons a t =>
    have ha : asciiDigit a = false := by
      refine hx a ?_
      rw [← List.head?_reverse, hx']
      rfl
    have hxr : x = (a :: t).reverse := by rw [← hx', List.reverse_reverse]
    simp [List.dropWhile_cons, ha, hxr]

theorem isPrefixOf_append_self (l t : List Char) : l.isPrefixOf (l ++ t) = true := by
  induction l with
  | nil => simp [List.isPrefixOf]
  | cons a l ih => simp [List.isPrefixOf, ih]

theorem isSuffixOf_append_self (l x : List Char) : l.isSuffixOf (x ++ l) = true := by
  simp only [List.isSuffixOf, List.reverse_append]
  exact isPrefixOf_append_self l.reverse x.reverse

/-- Core round-trip computation: on `pre ++ "_line_" ++ digits-of-n` with the
percolating tail pattern `"_line_"`, the decoder recovers `n`. -/
theorem lineTag_data : "_line_".data = ['_', 'l', 'i', 'n', 'e', '_'] := rfl

theorem reSearchTailPat_encode (pre : List Char) (n : Nat) :
    reSearchTailPat "_line_".data (pre ++ "_line_".data ++ natToDigits n) = some n := by
  have hx : ∀ a, (pre ++ "_line_".data).getLast? = some a → asciiDigit a = false := by
    intro a ha
    rw [← List.head?_reverse, List.reverse_append, lineTag_data] at ha
    simp at ha
    subst ha
    rfl
  have hd := natToDigits_all_digits n
  have ht : trailingDigits (pre ++ "_line_".data ++ natToDigits n) = natToDigits n :=
    trailingDigits_append_digits hx hd
  have hs : stripTrailingDigits (pre ++ "_line_".data ++ natToDigits n)
      = pre ++ "_line_".data :=
    stripTrailingDigits_append_digits hx hd
  unfold reSearchTailPat
  rw [ht, hs]
  have hne : (natToDigits n).isEmpty = false := by
    cases h : natToDigits n with
    | nil => exact absurd h (natToDigits_ne_nil n)
    | cons a l => rfl
  rw [hne]
  rw [isSuffixOf_append_self "_line_".data pre]
  simp [digitsVal_natToDigits]

/-- C3 round trip, `merged_results.py` decoder. -/
theorem roundtrip_merged (ns f : String) (n : Nat) :
    MergedResults.extract_line_number_from_custom_id (custom_id ns f n) = some n := by
  unfold MergedResults.extract_line_number_from_custom_id custom_id
  have : (⟨ns.data ++ '_' :: f.data ++ "_line_".data ++ natToDigits n⟩ : String).data
      = (ns.data ++ '_' :: f.data) ++ "_line_".data ++ natToDigits n := by
    simp
  rw [this]
  exact reSearchTailPat_encode (ns.data ++ '_' :: f.data) n

/-- C3 round trip, `mismatch.py` decoder (first pattern hits). -/
theorem roundtrip_mismatch (ns f : String) (n : Nat) :
    Mismatch.extract_line_number_from_custom_id (custom_id ns f n) = some n := by
  unfold Mismatch.extract_line_number_from_custom_id custom_id
  have : (⟨ns.data ++ '_' :: f.data ++ "_line_".data ++ natToDigits n⟩ : String).data
      = (ns.data ++ '_' :: f.data) ++ "_line_".data ++ natToDigits n := by
    simp
  rw [this]
  rw [reSearchTailPat_encode (ns.data ++ '_' :: f.data) n]

/-- **C3**: for every namespace string `ns`, field name `f` and `n : Nat`,
encoding the identifier as `f"{ns}_{f}_line_{n}"` (the `custom_id` built by
`batch_processWithInput.py`) and decoding it with either identifier decoder
(`merged_results.py`'s single-pattern decoder or `mismatch.py`'s
four-pattern decoder) recovers exactly `n`; in particular
`decode "ns_field_line_42" = 42`. -/
theorem C3_identifier_codec_roundtrip :
    (∀ (ns f : String) (n : Nat),
      MergedResults.extract_line_number_from_custom_id (custom_id ns f n) = some n ∧
      Mismatch.extract_line_number_from_custom_id (custom_id ns f n) = some n) ∧
    Mismatch.extract_line_number_from_custom_id "ns_field_line_42" = some 42 ∧
    MergedResults.extract_line_number_from_custom_id "ns_field_line_42" = some 42 := by
  refine ⟨fun ns f n => ⟨roundtrip_merged ns f n, roundtrip_mismatch ns f n⟩, by decide, by decide⟩

/-! ## JSON values and a model of `json.loads`

`JValue` models the untyped trees produced by Python's `json` module.
Python `dict`s are insertion-ordered association lists; `json.loads` keeps
the *last* binding for a repeated key, which the parser reproduces by
building objects with `upsertJ` (replace in place, else append), so that
`jlookup` (first match) agrees with CPython dict lookup.  Numbers are kept
only up to their integer part (`jnum`): the reconciliation code never reads
a numeric payload, it only tests `isinstance(x, dict)` and `'text' in x`,
so the numeric magnitude is irrelevant; float fractions/exponents are
accepted syntactically.  `NaN`/`Infinity` literals and `\u` surrogate
escapes are outside the modelled domain. -/

inductive JValue where
  | jnull
  | jbool (b : Bool)
  | jnum (n : Int)
  | jstr (s : String)
  | jarr (xs : List JValue)
  | jobj (fields : List (String × JValue))

/-- CPython dict lookup on an insertion-ordered association list (objects are
built deduplicated, so the first match is the binding). -/
def jlookup (fields : List (String × JValue)) (k : String) : Option JValue :=
  match fields with
  | [] => none
  | (k', v) :: rest => if k' = k then some v else jlookup rest k

/-- CPython dict assignment `d[k] = v`: replace an existing binding in place,
else append. -/
def upsertJ (fields : List (String × JValue)) (k : String) (v : JValue) :
    List (String × JValue) :=
  match fields with
  | [] => [(k, v)]
  | (k', v') :: rest => if k' = k then (k, v) :: rest else (k', v') :: upsertJ rest k v

/-- Python truthiness of a JSON value. -/
def truthy (v : JValue) : Bool :=
  match v with
  | .jnull => false
  | .jbool b => b
  | .jnum n => n != 0
  | .jstr s => !s.isEmpty
  | .jarr xs => !xs.isEmpty
  | .jobj fs => !fs.isEmpty

/-- JSON inter-token whitespace (`json.loads` accepts space, tab, LF, CR). -/
def jsonWSChar (c : Char) : Bool :=
  c = ' ' || c = '\t' || c = '\n' || c = '\r'

def jsonWS (l : List Char) : List Char := l.dropWhile jsonWSChar

def hexVal (c : Char) : Option Nat :=
  if '0' ≤ c && c ≤ '9' then some (c.toNat - 48)
  else if 'a' ≤ c && c ≤ 'f' then some (c.toNat - 87)
  else if 'A' ≤ c && c ≤ 'F' then some (c.toNat - 55)
  else none

/-- Body of a JSON string literal after the opening quote: strict-mode
`json.loads` string scanning (escapes; raw control characters rejected). -/
def parseStringBody : Nat → List Char → List Char → Option (String × List Char)
  | 0, _, _ => none
  | _ + 1, _, [] => none
  | f + 1, acc, c :: rest =>
    if c = '"' then some (⟨acc.reverse⟩, rest)
    else if c = '\\' then
      match rest with
      | [] => none
      | e :: rest2 =>
        if e = '"' then parseStringBody f ('"' :: acc) rest2
        else if e = '\\' then parseStringBody f ('\\' :: acc) rest2
        else if e = '/' then parseStringBody f ('/' :: acc) rest2
        else if e = 'b' then parseStringBody f ('\x08' :: acc) rest2
        else if e = 'f' then parseStringBody f ('\x0c' :: acc) rest2
        else if e = 'n' then parseStringBody f ('\n' :: acc) rest2
        else if e = 'r' then parseStringBody f ('\r' :: acc) rest2
        else if e = 't' then parseStringBody f ('\t' :: acc) rest2
        else if e = 'u' then
          match rest2 with
          | h1 :: h2 :: h3 :: h4 :: rest3 =>
            match hexVal h1, hexVal h2, hexVal h3, hexVal h4 with
            | some a, some b, some c2, some d2 =>
              let code := ((a * 16 + b) * 16 + c2) * 16 + d2
              if code < 0xD800 || 0xDFFF < code then
                parseStringBody f (Char.ofNat code :: acc) rest3
              else none
            | _, _, _, _ => none
          | _ => none
        else none
    else if c.toNat < 32 then none
    else parseStringBody f (c :: acc) rest

/-- JSON number grammar: optional minus, `0` or nonzero-led digit run,
optional fraction and exponent.  The stored value keeps only the signed
integer part (see the module comment on `JValue`). -/
def parseNumber (l : List Char) : Option (JValue × List Char) :=
  let (neg, l1) :=
    match l with
    | '-' :: t => (true, t)
    | _ => (false, l)
  match l1 with
  | [] => none
  | c :: rest =>
    if c = '0' then numTail neg [c] rest
    else if asciiDigit c then
      numTail neg (c :: rest.takeWhile asciiDigit) (rest.dropWhile asciiDigit)
    else none
where
  numTail (neg : Bool) (ds : List Char) (r : List Char) : Option (JValue × List Char) :=
    let v : Int := if neg then -(digitsVal ds : Int) else (digitsVal ds : Int)
    match r with
    | '.' :: fr =>
      match fr.takeWhile asciiDigit with
      | [] => none
      | _ => expTail v (fr.dropWhile asciiDigit)
    | _ => expTail v r
  expTail (v : Int) (r : List Char) : Option (JValue × List Char) :=
    match r with
    | 'e' :: er => expDigits v er
    | 'E' :: er => expDigits v er
    | _ => some (.jnum v, r)
  expDigits (v : Int) (r : List Char) : Option (JValue × List Char) :=
    let r1 := match r with
      | '+' :: t => t
      | '-' :: t => t
      | _ => r
    match r1.takeWhile asciiDigit with
    | [] => none
    | _ => some (.jnum v, r1.dropWhile asciiDigit)

mutual

/-- One JSON value, leading whitespace allowed; returns the remainder. -/
def parseValue : Nat → List Char → Option (JValue × List Char)
  | 0, _ => none
  | f + 1, l =>
    match jsonWS l with
    | [] => none
    | c :: rest =>
      if c = '{' then
        match jsonWS rest with
        | '}' :: r => some (.jobj [], r)
        | _ => parseMemberList f [] rest
      else if c = '[' then
        match jsonWS rest with
        | ']' :: r => some (.jarr [], r)
        | _ => parseElemList f [] rest
      else if c = '"' then
        match parseStringBody (f + 1) [] rest with
        | some (s, r) => some (.jstr s, r)
        | none => none
      else if c = 't' then
        match rest with
        | 'r' :: 'u' :: 'e' :: r => some (.jbool true, r)
        | _ => none
      else if c = 'f' then
        match rest with
        | 'a' :: 'l' :: 's' :: 'e' :: r => some (.jbool false, r)
        | _ => none
      else if c = 'n' then
        match rest with
        | 'u' :: 'l' :: 'l' :: r => some (.jnull, r)
        | _ => none
      else parseNumber (c :: rest)

/-- Members of an object after `{` (at least one member pending); the
accumulator is the dict built so far, updated with `upsertJ` exactly as
CPython assigns repeated keys. -/
def parseMemberList : Nat → List (String × JValue) → List Char →
    Option (JValue × List Char)
  | 0, _, _ => none
  | f + 1, acc, l =>
    match jsonWS l with
    | '"' :: r =>
      match parseStringBody (f + 1) [] r with
      | some (k, r2) =>
        match jsonWS r2 with
        | ':' :: r3 =>
          match parseValue f r3 with
          | some (v, r4) =>
            match jsonWS r4 with
            | ',' :: r5 => parseMemberList f (upsertJ acc k v) r5
            | '}' :: r5 => some (.jobj (upsertJ acc k v), r5)
            | _ => none
          | none => none
        | _ => none
      | none => none
    | _ => none

/-- Elements of an array after `[` (at least one element pending). -/
def parseElemList : Nat → List JValue → List Char → Option (JValue × List Char)
  | 0, _, _ => none
  | f + 1, acc, l =>
    match parseValue f l with
    | some (v, r) =>
      match jsonWS r with
      | ',' :: r2 => parseElemList f (v :: acc) r2
      | ']' :: r2 => some (.jarr (v :: acc).reverse, r2)
      | _ => none
    | none => none

end

/-- Model of `json.loads`: parse one JSON document, allowing surrounding
whitespace, rejecting trailing garbage; `none` models `json.JSONDecodeError`. -/
def jsonParse (s : String) : Option JValue :=
  match parseValue (s.data.length + 16) s.data with
  | some (v, rest) => if (jsonWS rest).isEmpty then some v else none
  | none => none

/-! ## Model of the code-fence regex searches

`merged_results.py` line 38 uses `re.search(r'```json\s*\n(.*?)\n```', t, re.DOTALL)`;
`mismatch.py` line 37 / `instructOutput.py` line 36 use
`re.search(r'```?json\s*\n(.*?)\n```?', t, re.DOTALL)` (the `?` makes the
*third* backtick of each fence optional, so the open fence is `` ```json ``
or ` ``json ` and the lazy group already ends at a two-backtick close).

Engine semantics reproduced here: scan start positions left to right; at a
position where an open alternative matches (the longer alternative first,
as the greedy `?` does), the greedy `\s*` must end at a newline, so the
newlines inside the maximal whitespace run after the open literal are tried
from the last to the first, and for each, the lazy `(.*?)` ends at the first
occurrence of the close literal; the first start position (then first
whitespace split) that completes wins. -/

/-- First occurrence split: `some (a, b)` with `l = a ++ pat ++ b` and `a`
minimal, `none` when `pat` does not occur in `l`. -/
def splitFirstInfix (pat : List Char) : List Char → Option (List Char × List Char)
  | [] => if pat.isEmpty then some ([], []) else none
  | c :: t =>
    if pat.isPrefixOf (c :: t) then some ([], (c :: t).drop pat.length)
    else
      match splitFirstInfix pat t with
      | some (a, b) => some (c :: a, b)
      | none => none

/-- Indices of `'\n'` inside the whitespace run, in decreasing order
(the order in which the backtracking greedy `\s*` releases characters). -/
def newlineSplitsDesc (w : List Char) : List Nat :=
  ((List.range w.length).filter fun i => w.getD i ' ' = '\n').reverse

/-- Attempt `\s*\n(.*?)close` immediately after an open literal. -/
def matchAtOpen (close : List Char) (afterOpen : List Char) : Option (List Char) :=
  (newlineSplitsDesc (afterOpen.takeWhile pySpace)).foldl
    (fun acc p =>
      match acc with
      | some g => some g
      | none =>
        match splitFirstInfix close (afterOpen.drop (p + 1)) with
        | some (g, _) => some g
        | none => none)
    none

/-- Try the open alternatives (in greedy order) at one start position. -/
def tryOpensAt (opens : List (List Char)) (close : List Char) (l : List Char) :
    Option (List Char) :=
  opens.foldl
    (fun acc o =>
      match acc with
      | some g => some g
      | none => if o.isPrefixOf l then matchAtOpen close (l.drop o.length) else none)
    none

/-- Full left-to-right scan: the captured group of the fence regex, if any. -/
def scanFence (opens : List (List Char)) (close : List Char) : List Char → Option (List Char)
  | [] => none
  | c :: t =>
    match tryOpensAt opens close (c :: t) with
    | some g => some g
    | none => scanFence opens close t

/-! ## Payload extraction

Python raises escape the inner `try` (which only catches
`json.JSONDecodeError`) and reach the outer `except Exception` handler;
`PyStep.exn` models that path.  `PyStep.skip` models a guard in the
navigation chain evaluating to `False`, after which control falls through
to the final `return ""`. -/

inductive PyStep (α : Type) where
  | ok (a : α)
  | skip
  | exn (msg : String)

/-- Model of the guard `if 'k' in v and v['k']:` on an arbitrary decoded
JSON value `v`.  For a dict this is key membership plus truthiness; `in`
on a string is a substring test and on a list a membership test, after
which the subscript `v['k']` raises `TypeError`; `in` on a number, bool or
`None` raises `TypeError` directly. -/
def guardGet (v : JValue) (k : String) : PyStep JValue :=
  match v with
  | .jobj fs =>
    match jlookup fs k with
    | some x => if truthy x then .ok x else .skip
    | none => .skip
  | .jstr s =>
    if containsSub k.data s.data then .exn "TypeError" else .skip
  | .jarr xs =>
    if xs.any (fun x => match x with | .jstr s => s == k | _ => false) then
      .exn "TypeError"
    else .skip
  | _ => .exn "TypeError"
where
  containsSub (pat l : List Char) : Bool :=
    if pat.isPrefixOf l then true
    else
      match l with
      | [] => false
      | _ :: t => containsSub pat t

/-- `len(v)` for a decoded JSON value (`TypeError` on numbers, bools, `None`). -/
def pyLen (v : JValue) : PyStep Nat :=
  match v with
  | .jarr xs => .ok xs.length
  | .jstr s => .ok s.length
  | .jobj fs => .ok fs.length
  | _ => .exn "TypeError"

/-- `v[0]` for a decoded JSON value: list head, first character of a string
(as a one-character string), `KeyError` on a dict with string keys,
`TypeError` otherwise. -/
def pyIndex0 (v : JValue) : PyStep JValue :=
  match v with
  | .jarr (x :: _) => .ok x
  | .jarr [] => .exn "IndexError"
  | .jstr s =>
    match s.data with
    | c :: _ => .ok (.jstr ⟨[c]⟩)
    | [] => .exn "IndexError"
  | .jobj _ => .exn "KeyError"
  | _ => .exn "TypeError"

/-- `isinstance(j, dict) and 'text' in j` followed by the lookup. -/
def textField (j : JValue) : Option JValue :=
  match j with
  | .jobj fs => jlookup fs "text"
  | _ => none

namespace MergedResults

def fenceOpens : List (List Char) := ["```json".data]

def fenceClose : List Char := "\n```".data

/-- The candidate-string stage of `BatchResultsMerger.extract_text_from_result`
(`merged_results.py` lines 35-54): fenced block first, then whole-string
JSON parse, with `json.JSONDecodeError` degrading to the raw trimmed text
and `.strip()` on a non-string `text` value raising `AttributeError`. -/
def processCandidate (t : String) : PyStep String :=
  match scanFence fenceOpens fenceClose t.data with
  | some inner =>
    match jsonParse (pyStrip ⟨inner⟩) with
    | none => .ok (pyStrip t)
    | some j =>
      match textField j with
      | some (.jstr s) => .ok (pyStrip s)
      | some _ => .exn "AttributeError"
      | none => wholeParse t
  | none => wholeParse t
where
  wholeParse (t : String) : PyStep String :=
    match jsonParse t with
    | none => .ok (pyStrip t)
    | some j =>
      match textField j with
      | some (.jstr s) => .ok (pyStrip s)
      | some _ => .exn "AttributeError"
      | none => .ok (pyStrip t)

/-- Shape-B navigation of `BatchResultsMerger.extract_text_from_result`
(`merged_results.py` lines 23-33):
`result -> message -> content` (a list), `content[0]` a dict with `text`. -/
def shapeBCandidate (result_entry : JValue) : PyStep String :=
  match guardGet result_entry "result" with
  | .ok result_data =>
    match guardGet result_data "message" with
    | .ok message =>
      match guardGet message "content" with
      | .ok content =>
        match content with
        | .jarr (first :: _) =>
          match first with
          | .jobj fs =>
            match jlookup fs "text" with
            | some (.jstr t) => .ok t
            | some _ => .exn "TypeError"
            | none => .skip
          | _ => .skip
        | _ => .skip
      | .skip => .skip
      | .exn m => .exn m
    | .skip => .skip
    | .exn m => .exn m
  | .skip => .skip
  | .exn m => .exn m

/-- `BatchResultsMerger.extract_text_from_result` (`merged_results.py`
lines 19-60): any exception reaching the outer handler yields `""`, as does
falling through every guard. -/
def extract_text_from_result (result_entry : JValue) : String :=
  match shapeBCandidate result_entry with
  | .ok t =>
    match processCandidate t with
    | .ok s => s
    | .skip => ""
    | .exn _ => ""
  | .skip => ""
  | .exn _ => ""

end MergedResults

namespace Mismatch

def fenceOpens : List (List Char) := ["```json".data, "``json".data]

def fenceClose : List Char := "\n``".data

/-- The candidate-string stage of
`FileEntriesMismatchFinder.extract_text_from_result` (`mismatch.py`
lines 34-57): lenient fence, then strip an optional leading `json\n`
prefix from the trimmed content, then whole-string JSON parse; parse
failure degrades to the raw trimmed text. -/
def processCandidate (t : String) : PyStep String :=
  match scanFence fenceOpens fenceClose t.data with
  | some inner =>
    match jsonParse (pyStrip ⟨inner⟩) with
    | none => .ok (pyStrip t)
    | some j =>
      match textField j with
      | some (.jstr s) => .ok (pyStrip s)
      | some _ => .exn "AttributeError"
      | none => wholeParse t
  | none => wholeParse t
where
  wholeParse (t : String) : PyStep String :=
    let cleaned0 := pyStrip t
    let cleaned : String :=
      if "json\n".data.isPrefixOf cleaned0.data then ⟨cleaned0.data.drop 5⟩ else cleaned0
    match jsonParse cleaned with
    | none => .ok (pyStrip t)
    | some j =>
      match textField j with
      | some (.jstr s) => .ok (pyStrip s)
      | some _ => .exn "AttributeError"
      | none => .ok (pyStrip t)

/-- Shape-A navigation of `FileEntriesMismatchFinder.extract_text_from_result`
(`mismatch.py` lines 23-32):
`response -> body -> choices` (truthy and non-empty), `choices[0] ->
message -> content`; `content` must be a string or the regex search raises. -/
def shapeACandidate (result_entry : JValue) : PyStep String :=
  match guardGet result_entry "response" with
  | .ok response_data =>
    match guardGet response_data "body" with
    | .ok body =>
      match guardGet body "choices" with
      | .ok choices =>
        match pyLen choices with
        | .ok n =>
          if n > 0 then
            match pyIndex0 choices with
            | .ok choice =>
              match guardGet choice "message" with
              | .ok message =>
                match guardGet message "content" with
                | .ok (.jstr t) => .ok t
                | .ok _ => .exn "TypeError"
                | .skip => .skip
                | .exn m => .exn m
              | .skip => .skip
              | .exn m => .exn m
            | .skip => .skip
            | .exn m => .exn m
          else .skip
        | .skip => .skip
        | .exn m => .exn m
      | .skip => .skip
      | .exn m => .exn m
    | .skip => .skip
    | .exn m => .exn m
  | .skip => .skip
  | .exn m => .exn m

/-- `FileEntriesMismatchFinder.extract_text_from_result` (`mismatch.py`
lines 19-62): guards falling through yield `""`; an exception reaching the
outer handler yields `"ERROR_EXTRACTING: " + str(e)`. -/
def extract_text_from_result (result_entry : JValue) : String :=
  match shapeACandidate result_entry with
  | .ok t =>
    match processCandidate t with
    | .ok s => s
    | .skip => ""
    | .exn m => "ERROR_EXTRACTING: " ++ m
  | .skip => ""
  | .exn m => "ERROR_EXTRACTING: " ++ m

end Mismatch

/-! ## Python `sorted(...)` on a set of ints

An executable model of Python's `sorted` applied to a set of line numbers:
insertion sort over the underlying multiset (kernel-reducible, unlike
`Finset.sort`'s merge sort).  `sortKeys` enumerates a `Finset Nat` in
ascending order. -/

def insertAsc (k : Nat) : List Nat → List Nat
  | [] => [k]
  | x :: xs => if k ≤ x then k :: x :: xs else x :: insertAsc k xs

theorem insertAsc_comm : ∀ (a b : Nat) (l : List Nat),
    insertAsc a (insertAsc b l) = insertAsc b (insertAsc a l) := by
  intro a b l
  induction l with
  | nil =>
    by_cases h1 : a ≤ b <;> by_cases h2 : b ≤ a <;>
      simp [insertAsc, h1, h2] <;> omega
  | cons x xs ih =>
    simp only [insertAsc]
    by_cases hbx : b ≤ x <;> by_cases hax : a ≤ x
    · by_cases hab : a ≤ b <;> by_cases hba : b ≤ a <;>
        simp [insertAsc, hbx, hax, hab, hba] <;> omega
    · have hab : ¬ a ≤ b := by omega
      simp [hab, hbx, hax, insertAsc]
    · have hba : ¬ b ≤ a := by omega
      simp [hba, hbx, hax, insertAsc]
    · simp [hbx, hax, insertAsc, ih]

instance : LeftCommutative insertAsc := ⟨insertAsc_comm⟩

def msort (s : Multiset Nat) : List Nat := Multiset.foldr insertAsc [] s

theorem insertAsc_perm (a : Nat) (l : List Nat) : List.Perm (insertAsc a l) (a :: l) := by
  induction l with
  | nil => rfl
  | cons x xs ih =>
    rw [insertAsc]
    by_cases h : a ≤ x
    · simp [h]
    · simp only [if_neg h]
      exact (ih.cons x).trans (List.Perm.swap a x xs)

theorem mem_insertAsc {k a : Nat} {l : List Nat} :
    k ∈ insertAsc a l ↔ k = a ∨ k ∈ l := by
  rw [(insertAsc_perm a l).mem_iff]
  simp

theorem msort_coe (s : Multiset Nat) : (msort s : Multiset Nat) = s := by
  induction s using Multiset.induction_on with
  | empty => rfl
  | cons a s ih =>
    rw [msort, Multiset.foldr_cons, ← msort]
    rw [Multiset.coe_eq_coe.mpr (insertAsc_perm a (msort s))]
    rw [← Multiset.cons_coe, ih]

theorem mem_msort {s : Multiset Nat} {k : Nat} : k ∈ msort s ↔ k ∈ s := by
  rw [← Multiset.mem_coe, msort_coe]

theorem length_msort (s : Multiset Nat) : (msort s).length = Multiset.card s := by
  rw [← Multiset.coe_card, msort_coe]

theorem nodup_msort {s : Multiset Nat} (h : s.Nodup) : (msort s).Nodup := by
  rw [← Multiset.coe_nodup, msort_coe]
  exact h

theorem insertAsc_sorted {a : Nat} {l : List Nat} (h : l.Sorted (· ≤ ·)) :
    (insertAsc a l).Sorted (· ≤ ·) := by
  induction l with
  | nil => simp [insertAsc]
  | cons x xs ih =>
    rw [insertAsc]
    rcases List.sorted_cons.mp h with ⟨hx, hxs⟩
    by_cases hax : a ≤ x
    · rw [if_pos hax]
      refine List.sorted_cons.mpr ⟨?_, h⟩
      intro y hy
      rcases List.mem_cons.mp hy with rfl | hy
      · exact hax
      · exact le_trans hax (hx y hy)
    · rw [if_neg hax]
      refine List.sorted_cons.mpr ⟨?_, ih hxs⟩
      intro y hy
      rcases mem_insertAsc.mp hy with rfl | hy
      · omega
      · exact hx y hy

theorem msort_sorted (s : Multiset Nat) : (msort s).Sorted (· ≤ ·) := by
  induction s using Multiset.induction_on with
  | empty => simp [msort]
  | cons a s ih =>
    rw [msort, Multiset.foldr_cons, ← msort]
    exact insertAsc_sorted ih

/-- Python `sorted(set_of_line_numbers)`. -/
def sortKeys (s : Finset Nat) : List Nat := msort s.val

theorem sortKeys_sorted_lt (s : Finset Nat) : (sortKeys s).Sorted (· < ·) :=
  (msort_sorted s.val).lt_of_le (nodup_msort s.nodup)

theorem mem_sortKeys {s : Finset Nat} {k : Nat} : k ∈ sortKeys s ↔ k ∈ s :=
  mem_msort

theorem length_sortKeys (s : Finset Nat) : (sortKeys s).length = s.card :=
  length_msort s.val

theorem sortKeys_toFinset (s : Finset Nat) : (sortKeys s).toFinset = s := by
  ext k
  rw [List.mem_toFinset, mem_sortKeys]

/-! ## Keyed maps (Python dicts keyed by line number) -/

/-- CPython dict assignment `d[k] = v` on an insertion-ordered association
list: replace an existing binding in place, else append. -/
def dictSet {α : Type} (m : List (Nat × α)) (k : Nat) (v : α) : List (Nat × α) :=
  match m with
  | [] => [(k, v)]
  | (k', v') :: rest => if k' = k then (k', v) :: rest else (k', v') :: dictSet rest k v

/-- Dict lookup (bindings are unique by construction, so first match). -/
def dictGet {α : Type} (m : List (Nat × α)) (k : Nat) : Option α :=
  match m with
  | [] => none
  | (k', v) :: rest => if k' = k then some v else dictGet rest k

/-- `set(d.keys())` of a keyed map. -/
def dictKeys {α : Type} (m : List (Nat × α)) : Finset Nat :=
  (m.map Prod.fst).toFinset

/-- `result.get('custom_id', dflt)`, restricted to string-valued ids: a
missing key yields the default, a string value yields that string.  (A
non-string `custom_id` value would make the later `re.search` raise an
uncaught `TypeError` and crash the run; such envelopes are outside the
modelled domain, and no claim exercises them.)  A non-dict `result` would
raise `AttributeError` on `.get` — likewise outside the modelled domain;
the default is returned so the function stays total. -/
def getCustomId (v : JValue) (dflt : String) : String :=
  match v with
  | .jobj fs =>
    match jlookup fs "custom_id" with
    | some (.jstr s) => s
    | some _ => dflt
    | none => dflt
  | _ => dflt

namespace MergedResults

/-- One loading loop of `BatchResultsMerger.create_single_merged_file`
(`merged_results.py` lines 129-136 and the analogous input/output loops):
for each decoded result entry, decode the `custom_id`; when it decodes,
assign the extracted payload into the keyed map (overwriting silently);
when it does not, do nothing and continue with the next entry. -/
def load_results (results : List JValue) (m : List (Nat × String)) :
    List (Nat × String) :=
  results.foldl
    (fun m r =>
      match extract_line_number_from_custom_id (getCustomId r "") with
      | some k => dictSet m k (extract_text_from_result r)
      | none => m)
    m

/-- Loading every batch file of one field in batch-number order into a
single keyed map (`for batch_num in available_batches: ...`). -/
def load_files (files : List (List JValue)) : List (Nat × String) :=
  files.foldl (fun m rs => load_results rs m) []

end MergedResults

/-! ## Merge writers -/

/-- One output row of the merge: a flat record with exactly the three
required field names, each holding a string payload
(`{"instruction": ..., "input": ..., "output": ...}`). -/
structure MergedEntry where
  instruction : String
  input : String
  output : String
deriving DecidableEq

namespace MergedResults

/-- `common_lines = set(i) & set(p) & set(o)` (`merged_results.py` line 163). -/
def common_lines (mi mp mo : List (Nat × String)) : Finset Nat :=
  dictKeys mi ∩ dictKeys mp ∩ dictKeys mo

/-- The record-building loop of `BatchResultsMerger.create_single_merged_file`
(`merged_results.py` lines 171-179): one `MergedEntry` per common key, in
ascending key order.  (Lookups are total on `common_lines`; `.getD ""` is
never the missing-key case there.) -/
def create_single_merged_file (mi mp mo : List (Nat × String)) : List MergedEntry :=
  (sortKeys (common_lines mi mp mo)).map fun k =>
    ⟨(dictGet mi k).getD "", (dictGet mp k).getD "", (dictGet mo k).getD ""⟩

end MergedResults

namespace InstructOutput

/-- The record-building loop of
`InstructionOutputMerger.create_single_merged_file` (`instructOutput.py`
lines 235-243): instruction and output streams joined over their common
keys, the `input` field always the empty string. -/
def create_single_merged_file (mi mo : List (Nat × String)) : List MergedEntry :=
  (sortKeys ((dictKeys mi) ∩ (dictKeys mo))).map fun k =>
    ⟨(dictGet mi k).getD "", "", (dictGet mo k).getD ""⟩

end InstructOutput

/-! ## The mismatch analyzer (`mismatch.py`) -/

namespace Mismatch

/-- `analysis['entries_by_line'][line_num]` (`mismatch.py` lines 148-153). -/
structure EntryInfo where
  custom_id : String
  extracted_text : String
  text_length : Nat
  entry_index : Nat
deriving DecidableEq

/-- One element of `analysis['error_entries']` (`mismatch.py` lines 157-161). -/
structure ErrorEntry where
  custom_id : String
  line_num : Option Nat
  error : String
deriving DecidableEq

/-- The per-file analysis dict of `analyze_file_entries` (`mismatch.py`
lines 122-134); the `file_path`/`file_type` metadata strings are omitted. -/
structure FileAnalysis where
  total_entries : Nat
  line_numbers : Finset Nat
  custom_ids : List String
  successful_extractions : Nat
  failed_extractions : Nat
  empty_extractions : Nat
  error_entries : List ErrorEntry
  duplicate_line_numbers : List (Nat × Nat)
  entries_by_line : List (Nat × EntryInfo)
deriving DecidableEq

/-- `line_number_counts[line_num] += 1` on a `defaultdict(int)` (insertion
ordered, like every CPython dict). -/
def bumpCount (m : List (Nat × Nat)) (k : Nat) : List (Nat × Nat) :=
  match m with
  | [] => [(k, 1)]
  | (k', c) :: rest => if k' = k then (k', c + 1) :: rest else (k', c) :: bumpCount rest k

/-- The body of `for i, result in enumerate(results)` in
`analyze_file_entries` (`mismatch.py` lines 138-165). -/
def analyzeStep (a : FileAnalysis) (counts : List (Nat × Nat)) (i : Nat)
    (result : JValue) : FileAnalysis × List (Nat × Nat) :=
  let cid := getCustomId result ("unknown_" ++ ⟨natToDigits i⟩)
  let line? := extract_line_number_from_custom_id cid
  let extracted := extract_text_from_result result
  let a := { a with custom_ids := a.custom_ids ++ [cid] }
  let (a, counts) :=
    match line? with
    | some k =>
      ({ a with
          line_numbers := insert k a.line_numbers,
          entries_by_line := dictSet a.entries_by_line k ⟨cid, extracted, extracted.length, i⟩ },
        bumpCount counts k)
    | none => (a, counts)
  let a :=
    if "ERROR_EXTRACTING".data.isPrefixOf extracted.data then
      { a with
          failed_extractions := a.failed_extractions + 1,
          error_entries := a.error_entries ++ [⟨cid, line?, extracted⟩] }
    else if extracted.isEmpty || (pyStrip extracted).isEmpty then
      { a with empty_extractions := a.empty_extractions + 1 }
    else
      { a with successful_extractions := a.successful_extractions + 1 }
  (a, counts)

def analyzeGo : FileAnalysis → List (Nat × Nat) → Nat → List JValue →
    FileAnalysis × List (Nat × Nat)
  | a, counts, _, [] => (a, counts)
  | a, counts, i, r :: rs =>
    let st := analyzeStep a counts i r
    analyzeGo st.1 st.2 (i + 1) rs

/-- `analyze_file_entries` (`mismatch.py` lines 118-172) on the decoded
entries of one file: fold the per-entry step, then derive
`duplicate_line_numbers` from the occurrence counts (`count > 1`). -/
def analyze_file_entries (results : List JValue) : FileAnalysis :=
  let init : FileAnalysis :=
    ⟨results.length, ∅, [], 0, 0, 0, [], [], []⟩
  let st := analyzeGo init [] 0 results
  { st.1 with duplicate_line_numbers := st.2.filter fun p => 1 < p.2 }

/-- Union of per-file `line_numbers` over the files of one side
(`mismatch.py` lines 187-208). -/
def all_lines (files : List (List JValue)) : Finset Nat :=
  files.foldl (fun s f => s ∪ (analyze_file_entries f).line_numbers) ∅

/-- The report dict built by `find_mismatches` (`mismatch.py` lines 210-229);
the embedded per-file analyses are reachable via `analyze_file_entries`. -/
structure MismatchReport where
  total_instruction_lines : Nat
  total_output_lines : Nat
  common_count : Nat
  missing_in_output : List Nat
  missing_in_instruction : List Nat
  total_mismatches : Nat
  lines_only_in_instruction : Nat
  lines_only_in_output : Nat
  matching_lines : Nat
deriving DecidableEq

/-- `find_mismatches` (`mismatch.py` lines 174-231): set algebra over the
two sides' key sets; `missing_*` are emitted as sorted lists. -/
def find_mismatches (instruction_files output_files : List (List JValue)) :
    MismatchReport :=
  let A := all_lines instruction_files
  let B := all_lines output_files
  { total_instruction_lines := A.card
    total_output_lines := B.card
    common_count := (A ∩ B).card
    missing_in_output := sortKeys (A \ B)
    missing_in_instruction := sortKeys (B \ A)
    total_mismatches := (A \ B).card + (B \ A).card
    lines_only_in_instruction := (A \ B).card
    lines_only_in_output := (B \ A).card
    matching_lines := (A ∩ B).card }

/-! ### Gap and range analysis -/

/-- The result dict of `find_gaps_and_ranges` (`mismatch.py` lines 317-354).
The empty-input branch returns only `ranges`/`gaps`/`min`/`max` (the span
statistics keys are absent), modelled by `none` fields. -/
structure GapReport where
  ranges : List (Nat × Nat)
  gaps : List (Nat × Nat)
  min? : Option Nat
  max? : Option Nat
  total_expected : Option Nat
  total_actual : Option Nat
  missing_count : Option Nat
deriving DecidableEq

/-- The `for current in sorted_lines[1:]` loop of `find_gaps_and_ranges`
(`mismatch.py` lines 330-344), including the final range append: returns
the `(ranges, gaps)` pair accumulated in order. -/
def gapsLoop : Nat → Nat → List Nat → List (Nat × Nat) × List (Nat × Nat)
  | start, prev, [] => ([(start, prev)], [])
  | start, prev, current :: rest =>
    if current ≠ prev + 1 then
      ((start, prev) :: (gapsLoop current current rest).1,
       if 1 < current - prev then
         (prev + 1, current - 1) :: (gapsLoop current current rest).2
       else (gapsLoop current current rest).2)
    else
      gapsLoop start current rest

/-- `find_gaps_and_ranges` (`mismatch.py` lines 317-354). -/
def find_gaps_and_ranges (line_numbers : Finset Nat) : GapReport :=
  match sortKeys line_numbers with
  | [] => ⟨[], [], none, none, none, none, none⟩
  | s0 :: rest =>
    let rg := gapsLoop s0 s0 rest
    let mn := s0
    let mx := (s0 :: rest).getLast (by simp)
    ⟨rg.1, rg.2, some mn, some mx, some (mx - mn + 1), some line_numbers.card,
      some ((mx - mn + 1) - line_numbers.card)⟩

end Mismatch

/-! ## Envelope constructors used by the claims -/

/-- A shape-B result envelope (`result.message.content[0].text`) with the
given `custom_id` and candidate text. -/
def shapeBEnvelope (cid t : String) : JValue :=
  .jobj [("custom_id", .jstr cid),
         ("result", .jobj [("message", .jobj [("content",
            .jarr [.jobj [("text", .jstr t)]])])])]

/-- A shape-A result envelope (`response.body.choices[0].message.content`)
with the given `custom_id` and candidate text. -/
def shapeAEnvelope (cid t : String) : JValue :=
  .jobj [("custom_id", .jstr cid),
         ("response", .jobj [("body", .jobj [("choices",
            .jarr [.jobj [("message", .jobj [("content", .jstr t)])]])])])]

/-! ## C10 -/

/-- **C10**: the gap-and-range analysis applied to the empty key set is total
and does not fail: it returns empty `ranges` and `gaps` lists with absent
`min` and `max` values (and absent span statistics), never indexing into
the empty sorted key sequence — `find_gaps_and_ranges ∅` evaluates to the
all-empty report. -/
theorem C10_find_gaps_and_ranges_empty_total :
    Mismatch.find_gaps_and_ranges (∅ : Finset Nat) =
      ⟨[], [], none, none, none, none, none⟩ := by
  rfl

/-! ## C1 -/

/-- **C1**: for every family of field streams (one per required field) whose
key-set intersection is `S`, the merge writer produces exactly `S.card`
merged records, one per key of `S` and none for any key outside `S`
(the emitted list is the image of a strictly-ascending key list whose
members are exactly `S`), in ascending key order; each record is a flat
`MergedEntry` carrying exactly the required field names with string payload
values (by the type of `MergedEntry`).  Both merge writers are covered:
the three-stream `merged_results.py` one and the two-stream
`instructOutput.py` one (constant empty `input`); the concrete conjunct is
the spec's instance of three streams meeting in `{1, 2, 3}`. -/
theorem C1_merge_writer_records :
    (∀ mi mp mo : List (Nat × String),
      (MergedResults.create_single_merged_file mi mp mo).length
          = (MergedResults.common_lines mi mp mo).card ∧
      ∃ ks : List Nat, List.Sorted (· < ·) ks ∧
        ks.toFinset = MergedResults.common_lines mi mp mo ∧
        MergedResults.create_single_merged_file mi mp mo =
          ks.map fun k =>
            ⟨(dictGet mi k).getD "", (dictGet mp k).getD "", (dictGet mo k).getD ""⟩) ∧
    (∀ mi mo : List (Nat × String),
      (InstructOutput.create_single_merged_file mi mo).length
          = (dictKeys mi ∩ dictKeys mo).card ∧
      ∃ ks : List Nat, List.Sorted (· < ·) ks ∧
        ks.toFinset = dictKeys mi ∩ dictKeys mo ∧
        InstructOutput.create_single_merged_file mi mo =
          ks.map fun k => ⟨(dictGet mi k).getD "", "", (dictGet mo k).getD ""⟩) ∧
    MergedResults.create_single_merged_file
        [(2, "i2"), (1, "i1"), (3, "i3")]
        [(1, "p1"), (3, "p3"), (2, "p2"), (9, "p9")]
        [(3, "o3"), (1, "o1"), (2, "o2"), (4, "o4")]
      = [⟨"i1", "p1", "o1"⟩, ⟨"i2", "p2", "o2"⟩, ⟨"i3", "p3", "o3"⟩] := by
  refine ⟨fun mi mp mo => ⟨?_, ?_⟩, fun mi mo => ⟨?_, ?_⟩, by decide⟩
  · simp [MergedResults.create_single_merged_file, length_sortKeys]
  · exact ⟨sortKeys (MergedResults.common_lines mi mp mo),
      sortKeys_sorted_lt _, sortKeys_toFinset _, rfl⟩
  · simp [InstructOutput.create_single_merged_file, length_sortKeys]
  · exact ⟨sortKeys ((dictKeys mi) ∩ (dictKeys mo)),
      sortKeys_sorted_lt _, sortKeys_toFinset _, rfl⟩

/-! ## C2 -/

/-- **C2**: the reconciler's intersection is the set-theoretic intersection
of the per-field key sets, and each side's `only_in` set is its key set
minus the intersection, reported per side: in `find_mismatches`,
`missing_in_output` enumerates `key_set(instruction) − intersection` and
`missing_in_instruction` enumerates `key_set(output) − intersection`; in
the three-stream merger, membership in `common_lines` is conjunction of
membership in the three key sets.  The concrete conjunct is the spec's
instance: key sets `{1,2,3,5}`, `{1,2,3}`, `{1,2,3,4}` give intersection
`{1,2,3}` and per-field differences `{5}`, `∅`, `{4}`. -/
theorem C2_reconciler_intersection_only_in :
    (∀ instruction_files output_files : List (List JValue),
      (Mismatch.find_mismatches instruction_files output_files).common_count
          = (Mismatch.all_lines instruction_files ∩ Mismatch.all_lines output_files).card ∧
      (Mismatch.find_mismatches instruction_files output_files).missing_in_output.toFinset
          = Mismatch.all_lines instruction_files \
              (Mismatch.all_lines instruction_files ∩ Mismatch.all_lines output_files) ∧
      (Mismatch.find_mismatches instruction_files output_files).missing_in_instruction.toFinset
          = Mismatch.all_lines output_files \
              (Mismatch.all_lines output_files ∩ Mismatch.all_lines instruction_files)) ∧
    (∀ (mi mp mo : List (Nat × String)) (k : Nat),
      k ∈ MergedResults.common_lines mi mp mo ↔
        k ∈ dictKeys mi ∧ k ∈ dictKeys mp ∧ k ∈ dictKeys mo) ∧
    (MergedResults.common_lines
        [(1, "a"), (2, "b"), (3, "c"), (5, "d")]
        [(1, "e"), (2, "f"), (3, "g")]
        [(1, "h"), (2, "i"), (3, "j"), (4, "k")] = {1, 2, 3} ∧
     dictKeys [(1, "a"), (2, "b"), (3, "c"), (5, "d")] \
        MergedResults.common_lines
          [(1, "a"), (2, "b"), (3, "c"), (5, "d")]
          [(1, "e"), (2, "f"), (3, "g")]
          [(1, "h"), (2, "i"), (3, "j"), (4, "k")] = {5} ∧
     dictKeys [(1, "e"), (2, "f"), (3, "g")] \
        MergedResults.common_lines
          [(1, "a"), (2, "b"), (3, "c"), (5, "d")]
          [(1, "e"), (2, "f"), (3, "g")]
          [(1, "h"), (2, "i"), (3, "j"), (4, "k")] = ∅ ∧
     dictKeys [(1, "h"), (2, "i"), (3, "j"), (4, "k")] \
        MergedResults.common_lines
          [(1, "a"), (2, "b"), (3, "c"), (5, "d")]
          [(1, "e"), (2, "f"), (3, "g")]
          [(1, "h"), (2, "i"), (3, "j"), (4, "k")] = {4}) := by
  refine ⟨fun instF outF => ⟨rfl, ?_, ?_⟩, fun mi mp mo k => ?_, by decide⟩
  · rw [Finset.sdiff_inter_self_left]
    exact sortKeys_toFinset _
  · rw [Finset.sdiff_inter_self_left]
    exact sortKeys_toFinset _
  · simp [MergedResults.common_lines, Finset.mem_inter, and_assoc]

/-! ## C6 -/

/-- **C6**: payload extraction is total (a total Lean function of the
envelope) and never throws: for a shape-B envelope whose `content[0].text`
is a bare (non-fenced) string `Y` that is not valid JSON, extraction
returns the raw candidate text, trimmed — a success value, not an error —
and any exception inside the navigation degrades to the weaker result
`""` instead of halting processing. -/
theorem C6_extraction_total_graceful (cid Y : String)
    (hfence : scanFence MergedResults.fenceOpens MergedResults.fenceClose Y.data = none)
    (hjson : jsonParse Y = none)
    (hne : pyStrip Y ≠ "") :
    (MergedResults.extract_text_from_result (shapeBEnvelope cid Y) = pyStrip Y ∧
      MergedResults.extract_text_from_result (shapeBEnvelope cid Y) ≠ "") ∧
    ∀ (v : JValue) (msg : String), MergedResults.shapeBCandidate v = .exn msg →
      MergedResults.extract_text_from_result v = "" := by
  constructor
  · have h1 : MergedResults.shapeBCandidate (shapeBEnvelope cid Y) = .ok Y := rfl
    have h2 : MergedResults.extract_text_from_result (shapeBEnvelope cid Y) = pyStrip Y := by
      unfold MergedResults.extract_text_from_result
      simp only [h1]
      unfold MergedResults.processCandidate
      simp only [hfence]
      unfold MergedResults.processCandidate.wholeParse
      simp only [hjson]
    exact ⟨h2, by rw [h2]; exact hne⟩
  · intro v msg h
    unfold MergedResults.extract_text_from_result
    simp only [h]

/-- Witness for C6 at `Y = "Salaam duniya"`. -/
theorem C6_witness :
    MergedResults.extract_text_from_result (shapeBEnvelope "b_line_1" "Salaam duniya")
      = pyStrip "Salaam duniya" :=
  (C6_extraction_total_graceful "b_line_1" "Salaam duniya" rfl rfl (by decide)).1.1

/-! ## C7 -/

/-- **C7 counterexample**: the claim quantifies over fenced blocks "whose
opening fence is optionally followed by a language tag", but the code's
fence regex requires the literal `json` tag.  For a shape-A envelope whose
content wraps `{"text": "X"}` in a fence *without* a language tag, the
fence regex does not match, the whole-string JSON parse fails on the
backticks, and extraction returns the raw trimmed candidate — not
`Success("X")` as the claim requires. -/
theorem C7_counterexample :
    Mismatch.extract_text_from_result
        (shapeAEnvelope "a_line_0" "```\n\x7b\"text\": \"X\"\x7d\n```")
      = "```\n\x7b\"text\": \"X\"\x7d\n```" ∧
    ("```\n\x7b\"text\": \"X\"\x7d\n```" : String) ≠ "X" :=
  ⟨rfl, by decide⟩

/-- **C7 (amended)**: for every candidate payload string containing a fenced
block whose opening fence is followed by the `json` language tag, if the
enclosed text parses as a JSON object whose `text` key holds a string,
then extraction returns that value, trimmed — in both extractor variants;
a non-empty shape-A envelope feeds its content into the candidate stage
unchanged, and the spec's concrete instance (shape A wrapping
`{"text": "X"}` in a `json`-tagged fence) extracts to `"X"`. -/
theorem C7_amended_fenced_json_extraction :
    (∀ (cand : String) (inner : List Char) (fs : List (String × JValue)) (v : String),
      scanFence Mismatch.fenceOpens Mismatch.fenceClose cand.data = some inner →
      jsonParse (pyStrip ⟨inner⟩) = some (.jobj fs) →
      jlookup fs "text" = some (.jstr v) →
      Mismatch.processCandidate cand = .ok (pyStrip v)) ∧
    (∀ (cand : String) (inner : List Char) (fs : List (String × JValue)) (v : String),
      scanFence MergedResults.fenceOpens MergedResults.fenceClose cand.data = some inner →
      jsonParse (pyStrip ⟨inner⟩) = some (.jobj fs) →
      jlookup fs "text" = some (.jstr v) →
      MergedResults.processCandidate cand = .ok (pyStrip v)) ∧
    (∀ cid t : String, t.isEmpty = false →
      Mismatch.shapeACandidate (shapeAEnvelope cid t) = .ok t) ∧
    Mismatch.extract_text_from_result
        (shapeAEnvelope "a_line_0" "```json\n\x7b\"text\": \"X\"\x7d\n```") = "X" := by
  refine ⟨?_, ?_, ?_, rfl⟩
  · intro cand inner fs v hf hp hv
    unfold Mismatch.processCandidate
    simp only [hf, hp, textField, hv]
  · intro cand inner fs v hf hp hv
    unfold MergedResults.processCandidate
    simp only [hf, hp, textField, hv]
  · intro cid t ht
    unfold Mismatch.shapeACandidate shapeAEnvelope
    simp [guardGet, jlookup, truthy, pyLen, pyIndex0, ht]

/-- Witness for the amended C7 at the `json`-tagged fenced candidate. -/
theorem C7_amended_witness :
    Mismatch.processCandidate "```json\n\x7b\"text\": \"X\"\x7d\n```"
      = .ok (pyStrip "X") :=
  C7_amended_fenced_json_extraction.1
    "```json\n\x7b\"text\": \"X\"\x7d\n```"
    "\x7b\"text\": \"X\"\x7d".data
    [("text", .jstr "X")] "X" rfl rfl rfl

/-! ## Keyed-map lemmas shared by the stream claims -/

theorem dictGet_dictSet_self {α : Type} (m : List (Nat × α)) (k : Nat) (v : α) :
    dictGet (dictSet m k v) k = some v := by
  induction m with
  | nil => simp [dictSet, dictGet]
  | cons p rest ih =>
    obtain ⟨k', v'⟩ := p
    by_cases h : k' = k
    · simp [dictSet, dictGet, h]
    · simp [dictSet, dictGet, h, ih]

theorem dictGet_dictSet_ne {α : Type} (m : List (Nat × α)) {k' k : Nat} (v : α)
    (h : k' ≠ k) : dictGet (dictSet m k' v) k = dictGet m k := by
  induction m with
  | nil => simp [dictSet, dictGet, h]
  | cons p rest ih =>
    obtain ⟨k2, v2⟩ := p
    by_cases h2 : k2 = k'
    · subst h2
      simp [dictSet, dictGet, h]
    · by_cases h3 : k2 = k
      · subst h3
        simp [dictSet, dictGet, h2]
      · simp [dictSet, dictGet, h2, h3, ih]

theorem dictKeys_dictSet {α : Type} (m : List (Nat × α)) (k : Nat) (v : α) :
    dictKeys (dictSet m k v) = insert k (dictKeys m) := by
  induction m with
  | nil => simp [dictSet, dictKeys]
  | cons p rest ih =>
    obtain ⟨k', v'⟩ := p
    by_cases h : k' = k
    · subst h
      simp [dictSet, dictKeys, List.toFinset_cons]
    · simp only [dictSet, if_neg h, List.map_cons, List.toFinset_cons, dictKeys] at *
      rw [ih, Finset.Insert.comm]

theorem load_results_append (l1 l2 : List JValue) (m : List (Nat × String)) :
    MergedResults.load_results (l1 ++ l2) m
      = MergedResults.load_results l2 (MergedResults.load_results l1 m) :=
  List.foldl_append _ _ _ _

/-- The loading step leaves the map unchanged on an undecodable identifier
and assigns on a decodable one — spelled out once for reuse. -/
theorem load_results_cons (r : JValue) (rs : List JValue) (m : List (Nat × String)) :
    MergedResults.load_results (r :: rs) m
      = MergedResults.load_results rs
          (match MergedResults.extract_line_number_from_custom_id (getCustomId r "") with
            | some k => dictSet m k (MergedResults.extract_text_from_result r)
            | none => m) := by
  rfl

theorem dictGet_load_results_of_not_key (envs : List JValue) (m : List (Nat × String))
    (k : Nat)
    (h : ∀ r ∈ envs, MergedResults.extract_line_number_from_custom_id (getCustomId r "") ≠ some k) :
    dictGet (MergedResults.load_results envs m) k = dictGet m k := by
  induction envs generalizing m with
  | nil => rfl
  | cons r rs ih =>
    rw [load_results_cons]
    have hr := h r (List.mem_cons_self r rs)
    have hrs := fun x hx => h x (List.mem_cons_of_mem r hx)
    cases he : MergedResults.extract_line_number_from_custom_id (getCustomId r "") with
    | none => simp only [he]; exact ih m hrs
    | some k' =>
      simp only [he]
      rw [ih _ hrs]
      exact dictGet_dictSet_ne m _ (fun hk => hr (hk ▸ he))

theorem mem_dictKeys_load_results (envs : List JValue) (m : List (Nat × String))
    (k : Nat) (h : k ∈ dictKeys (MergedResults.load_results envs m)) :
    k ∈ dictKeys m ∨ ∃ r ∈ envs,
      MergedResults.extract_line_number_from_custom_id (getCustomId r "") = some k := by
  induction envs generalizing m with
  | nil => exact Or.inl h
  | cons r rs ih =>
    rw [load_results_cons] at h
    cases he : MergedResults.extract_line_number_from_custom_id (getCustomId r "") with
    | none =>
      rw [he] at h
      rcases ih m h with h1 | ⟨r', hr', hk'⟩
      · exact Or.inl h1
      · exact Or.inr ⟨r', List.mem_cons_of_mem r hr', hk'⟩
    | some k' =>
      rw [he] at h
      rcases ih _ h with h1 | ⟨r', hr', hk'⟩
      · rw [dictKeys_dictSet] at h1
        rcases Finset.mem_insert.mp h1 with rfl | h2
        · exact Or.inr ⟨r, List.mem_cons_self r rs, he⟩
        · exact Or.inl h2
      · exact Or.inr ⟨r', List.mem_cons_of_mem r hr', hk'⟩

/-! ## C5 -/

/-- **C5 counterexample**: the claim says a line whose identifier cannot be
decoded increments an "unparseable identifier" counter.  No such counter
exists in the code: loading one envelope with `custom_id` absent leaves the
merge loader's entire state identical to processing no entries at all, and
the mismatch analyzer tallies the entry as an *empty extraction*
(`empty_extractions = 1`), with no field recording an unparseable
identifier. -/
theorem C5_counterexample :
    MergedResults.load_results [JValue.jobj []] []
      = MergedResults.load_results [] [] ∧
    Mismatch.analyze_file_entries [JValue.jobj []]
      = ⟨1, ∅, ["unknown_0"], 0, 0, 1, [], [], []⟩ :=
  ⟨rfl, rfl⟩

/-- **C5 (amended)**: a result line whose identifier cannot be decoded is
excluded from its field stream, processing of the remaining lines
continues (deleting the line from the input gives the same stream), and
every key of the stream — hence every key of any intersection of streams —
stems from an entry with a decodable identifier.  No dedicated
unparseable-identifier counter is maintained: the skip is silent in the
merge loader (and the mismatch analyzer tallies such an entry by its
extraction outcome instead). -/
theorem C5_amended_unparseable_skipped (pre post : List JValue)
    (m : List (Nat × String)) (e : JValue)
    (he : MergedResults.extract_line_number_from_custom_id (getCustomId e "") = none) :
    MergedResults.load_results (pre ++ e :: post) m
      = MergedResults.load_results (pre ++ post) m ∧
    ∀ k ∈ dictKeys (MergedResults.load_results (pre ++ e :: post) m),
      k ∈ dictKeys m ∨ ∃ r ∈ pre ++ post,
        MergedResults.extract_line_number_from_custom_id (getCustomId r "") = some k := by
  have h1 : MergedResults.load_results (pre ++ e :: post) m
      = MergedResults.load_results (pre ++ post) m := by
    rw [load_results_append, load_results_append, load_results_cons]
    simp only [he]
  refine ⟨h1, fun k hk => ?_⟩
  rw [h1] at hk
  exact mem_dictKeys_load_results _ m k hk

/-- Witness for the amended C5: one undecodable envelope between two
decodable ones. -/
theorem C5_amended_witness :
    MergedResults.load_results
        [shapeBEnvelope "x_line_1" "a", JValue.jobj [], shapeBEnvelope "x_line_2" "b"] []
      = MergedResults.load_results
          [shapeBEnvelope "x_line_1" "a", shapeBEnvelope "x_line_2" "b"] [] :=
  (C5_amended_unparseable_skipped
    [shapeBEnvelope "x_line_1" "a"] [shapeBEnvelope "x_line_2" "b"]
    [] (JValue.jobj []) rfl).1

/-! ## C4 -/

namespace Mismatch

/-- The decoded key of the `i`-th entry, as `analyze_file_entries` computes
it (`result.get('custom_id', f'unknown_{i}')` then the decoder). -/
def decodedKeyAt (i : Nat) (r : JValue) : Option Nat :=
  extract_line_number_from_custom_id (getCustomId r ("unknown_" ++ ⟨natToDigits i⟩))

/-- The sequence of decoded keys of an entry list, starting at index `i`
(entries whose identifier does not decode contribute nothing). -/
def decodedKeys : Nat → List JValue → List Nat
  | _, [] => []
  | i, r :: rs =>
    match decodedKeyAt i r with
    | some k => k :: decodedKeys (i + 1) rs
    | none => decodedKeys (i + 1) rs

/-- Occurrence count held by the counts dict (`defaultdict(int)` read). -/
def countGet (m : List (Nat × Nat)) (k : Nat) : Nat :=
  (dictGet m k).getD 0

theorem countGet_bumpCount_self (m : List (Nat × Nat)) (k : Nat) :
    countGet (bumpCount m k) k = countGet m k + 1 := by
  induction m with
  | nil => simp [bumpCount, countGet, dictGet]
  | cons p rest ih =>
    obtain ⟨k2, c2⟩ := p
    by_cases h : k2 = k
    · subst h
      simp [bumpCount, countGet, dictGet]
    · simpa [bumpCount, countGet, dictGet, h] using ih

theorem countGet_bumpCount_ne (m : List (Nat × Nat)) {k' k : Nat} (h : k' ≠ k) :
    countGet (bumpCount m k') k = countGet m k := by
  induction m with
  | nil => simp [bumpCount, countGet, dictGet, h]
  | cons p rest ih =>
    obtain ⟨k2, c2⟩ := p
    by_cases h2 : k2 = k'
    · subst h2
      simp [bumpCount, countGet, dictGet, h]
    · by_cases h3 : k2 = k
      · subst h3
        simp [bumpCount, countGet, dictGet, h2]
      · simpa [bumpCount, countGet, dictGet, h2, h3] using ih

theorem countGet_foldl_bumpCount (L : List Nat) :
    ∀ (m : List (Nat × Nat)) (k : Nat),
      countGet (L.foldl bumpCount m) k = countGet m k + L.count k := by
  induction L with
  | nil => simp
  | cons x xs ih =>
    intro m k
    rw [List.foldl_cons, ih]
    by_cases h : x = k
    · subst h
      rw [countGet_bumpCount_self]
      simp [List.count_cons]
      omega
    · rw [countGet_bumpCount_ne m h]
      simp [List.count_cons, h]

theorem mem_keys_bumpCount {m : List (Nat × Nat)} {k' k : Nat} :
    k ∈ (bumpCount m k').map Prod.fst ↔ k ∈ m.map Prod.fst ∨ k = k' := by
  induction m with
  | nil => simp [bumpCount]
  | cons p rest ih =>
    obtain ⟨k2, c2⟩ := p
    by_cases h : k2 = k'
    · subst h
      simp [bumpCount]
      tauto
    · simp [bumpCount, h, ih]
      tauto

theorem nodup_keys_bumpCount {m : List (Nat × Nat)} {k' : Nat}
    (h : (m.map Prod.fst).Nodup) : ((bumpCount m k').map Prod.fst).Nodup := by
  induction m with
  | nil => simp [bumpCount]
  | cons p rest ih =>
    obtain ⟨k2, c2⟩ := p
    simp only [List.map_cons, List.nodup_cons] at h
    by_cases h2 : k2 = k'
    · subst h2
      simp [bumpCount, List.nodup_cons, h.1, h.2]
    · simp only [bumpCount, if_neg h2, List.map_cons, List.nodup_cons]
      refine ⟨?_, ih h.2⟩
      rw [mem_keys_bumpCount]
      rintro (hm | rfl)
      · exact h.1 hm
      · exact h2 rfl

theorem dictGet_eq_none_iff {α : Type} {m : List (Nat × α)} {k : Nat} :
    dictGet m k = none ↔ k ∉ m.map Prod.fst := by
  induction m with
  | nil => simp [dictGet]
  | cons p rest ih =>
    obtain ⟨k2, v2⟩ := p
    by_cases h : k2 = k
    · subst h
      simp [dictGet]
    · simp only [dictGet, if_neg h, ih, List.map_cons, List.mem_cons, not_or]
      constructor
      · intro hn
        exact ⟨fun he => h he.symm, hn⟩
      · exact fun hn => hn.2

theorem mem_of_dictGet {α : Type} {m : List (Nat × α)} {k : Nat} {v : α}
    (h : dictGet m k = some v) : (k, v) ∈ m := by
  induction m with
  | nil => simp [dictGet] at h
  | cons p rest ih =>
    obtain ⟨k2, v2⟩ := p
    by_cases h2 : k2 = k
    · subst h2
      rw [show dictGet ((k2, v2) :: rest) k2 = some v2 by simp [dictGet]] at h
      injection h with hv
      subst hv
      exact List.mem_cons_self _ _
    · simp only [dictGet, if_neg h2] at h
      exact List.mem_cons_of_mem _ (ih h)

theorem dictGet_of_mem_nodup {α : Type} {m : List (Nat × α)} {k : Nat} {v : α}
    (hn : (m.map Prod.fst).Nodup) (h : (k, v) ∈ m) : dictGet m k = some v := by
  induction m with
  | nil => simp at h
  | cons p rest ih =>
    obtain ⟨k2, v2⟩ := p
    simp only [List.map_cons, List.nodup_cons] at hn
    rcases List.mem_cons.mp h with he | hm
    · cases he
      simp [dictGet]
    · have hk2 : k2 ≠ k := by
        rintro rfl
        exact hn.1 (List.mem_map.mpr ⟨(k2, v), hm, rfl⟩)
      simp only [dictGet, if_neg hk2]
      exact ih hn.2 hm

theorem nodup_keys_foldl_bumpCount (L : List Nat) :
    ∀ m : List (Nat × Nat), (m.map Prod.fst).Nodup →
      ((L.foldl bumpCount m).map Prod.fst).Nodup := by
  induction L with
  | nil => exact fun m h => h
  | cons x xs ih => exact fun m h => ih (bumpCount m x) (nodup_keys_bumpCount h)

theorem mem_keys_foldl_bumpCount (L : List Nat) :
    ∀ (m : List (Nat × Nat)) (k : Nat),
      k ∈ (L.foldl bumpCount m).map Prod.fst ↔ k ∈ m.map Prod.fst ∨ k ∈ L := by
  induction L with
  | nil => simp
  | cons x xs ih =>
    intro m k
    rw [List.foldl_cons, ih, mem_keys_bumpCount]
    simp [List.mem_cons]
    tauto

/-- Characterisation of the counts dict built from scratch. -/
theorem mem_foldl_bumpCount_iff (L : List Nat) (k c : Nat) :
    (k, c) ∈ L.foldl bumpCount [] ↔ 0 < c ∧ L.count k = c := by
  have hn : ((L.foldl bumpCount []).map Prod.fst).Nodup :=
    nodup_keys_foldl_bumpCount L [] (by simp)
  have hcount := countGet_foldl_bumpCount L [] k
  rw [countGet, countGet] at hcount
  simp only [dictGet, Option.getD_none, Nat.zero_add] at hcount
  constructor
  · intro h
    have hg : dictGet (L.foldl bumpCount []) k = some c := dictGet_of_mem_nodup hn h
    rw [hg, Option.getD_some] at hcount
    have hk : k ∈ (L.foldl bumpCount []).map Prod.fst :=
      List.mem_map.mpr ⟨(k, c), h, rfl⟩
    rw [mem_keys_foldl_bumpCount] at hk
    have hkL : k ∈ L := by
      rcases hk with hk | hk
      · simp at hk
      · exact hk
    have hpos := List.count_pos_iff.mpr hkL
    exact ⟨by omega, hcount.symm⟩
  · rintro ⟨hc, rfl⟩
    have hk : k ∈ (L.foldl bumpCount []).map Prod.fst := by
      rw [mem_keys_foldl_bumpCount]
      exact Or.inr (List.count_pos_iff.mp hc)
    cases hg : dictGet (L.foldl bumpCount []) k with
    | none => exact absurd hk (dictGet_eq_none_iff.mp hg)
    | some c2 =>
      rw [hg, Option.getD_some] at hcount
      rw [← hcount]
      exact mem_of_dictGet hg

theorem analyzeStep_counts (a : FileAnalysis) (counts : List (Nat × Nat)) (i : Nat)
    (r : JValue) :
    (analyzeStep a counts i r).2 =
      match decodedKeyAt i r with
      | some k => bumpCount counts k
      | none => counts := by
  unfold analyzeStep decodedKeyAt
  cases he : extract_line_number_from_custom_id
      (getCustomId r ("unknown_" ++ ⟨natToDigits i⟩)) <;> simp [he]

theorem analyzeGo_counts (rs : List JValue) :
    ∀ (a : FileAnalysis) (counts : List (Nat × Nat)) (i : Nat),
      (analyzeGo a counts i rs).2 = (decodedKeys i rs).foldl bumpCount counts := by
  induction rs with
  | nil => intro a counts i; rfl
  | cons r rest ih =>
    intro a counts i
    rw [analyzeGo, ih, analyzeStep_counts, decodedKeys]
    cases decodedKeyAt i r <;> simp

theorem analyze_duplicates_iff (rs : List JValue) (k c : Nat) :
    (k, c) ∈ (analyze_file_entries rs).duplicate_line_numbers ↔
      1 < c ∧ (decodedKeys 0 rs).count k = c := by
  unfold analyze_file_entries
  simp only [analyzeGo_counts, List.mem_filter, decide_eq_true_eq]
  rw [mem_foldl_bumpCount_iff]
  constructor
  · rintro ⟨⟨hc, hcount⟩, hgt⟩
    exact ⟨hgt, hcount⟩
  · rintro ⟨hgt, hcount⟩
    exact ⟨⟨by omega, hcount⟩, hgt⟩

end Mismatch

/-- **C4 counterexample**: for two files each containing an entry for key 7,
the second file's payload wins, but no duplicate-key counter increments:
the merge loader's entire post-state is just the map `[(7, "second")]`
(nothing counts the overwrite), and the per-file analyzer reports no
duplicate for either file, because its duplicate tracking is per file. -/
theorem C4_counterexample :
    MergedResults.load_files
        [[shapeBEnvelope "x_line_7" "first"], [shapeBEnvelope "y_line_7" "second"]]
      = [(7, "second")] ∧
    (Mismatch.analyze_file_entries [shapeAEnvelope "x_line_7" "first"]).duplicate_line_numbers
      = [] ∧
    (Mismatch.analyze_file_entries [shapeAEnvelope "y_line_7" "second"]).duplicate_line_numbers
      = [] :=
  ⟨rfl, rfl, rfl⟩

/-- **C4 (amended)**: within a field stream the later occurrence of a key
(later file, or later line within a file — the loader folds the files'
entries in order) silently overwrites the earlier one: the stored payload
for `k` is the extraction of the last entry decoding to `k`.  Duplicate
occurrences are recorded only *per file* by the mismatch analyzer:
`duplicate_line_numbers` lists exactly the keys occurring more than once
within that file, with their occurrence counts; an overwrite across files
increments no counter. -/
theorem C4_amended_last_writer_wins (envs post : List JValue)
    (m : List (Nat × String)) (e : JValue) (k : Nat)
    (he : MergedResults.extract_line_number_from_custom_id (getCustomId e "") = some k)
    (hpost : ∀ r ∈ post,
      MergedResults.extract_line_number_from_custom_id (getCustomId r "") ≠ some k) :
    dictGet (MergedResults.load_results (envs ++ e :: post) m) k
      = some (MergedResults.extract_text_from_result e) ∧
    ∀ (rs : List JValue) (k' c : Nat),
      (k', c) ∈ (Mismatch.analyze_file_entries rs).duplicate_line_numbers ↔
        1 < c ∧ (Mismatch.decodedKeys 0 rs).count k' = c := by
  constructor
  · rw [load_results_append, load_results_cons, he]
    rw [dictGet_load_results_of_not_key post _ k hpost]
    exact dictGet_dictSet_self _ k _
  · exact Mismatch.analyze_duplicates_iff

/-- Witness for the amended C4: two one-entry files sharing key 7. -/
theorem C4_amended_witness :
    dictGet
        (MergedResults.load_results
          ([shapeBEnvelope "x_line_7" "first"] ++ shapeBEnvelope "y_line_7" "second" :: [])
          []) 7
      = some (MergedResults.extract_text_from_result (shapeBEnvelope "y_line_7" "second")) :=
  (C4_amended_last_writer_wins [shapeBEnvelope "x_line_7" "first"] []
    [] (shapeBEnvelope "y_line_7" "second") 7 rfl
    (fun r hr => absurd hr (List.not_mem_nil r))).1

/-! ## C8 -/

/-- **C8 counterexample**: the claim says a `StructurallyAbsent` envelope or
a genuine JSON-decode failure during extraction is counted in the
extraction-error count.  In the code, a structurally absent envelope
resolves to `""` and is tallied as an *empty* extraction, and a
JSON-decode failure falls back to the raw text and is tallied as a
*successful* extraction; the error tally stays at zero. -/
theorem C8_counterexample :
    (Mismatch.analyze_file_entries
        [JValue.jobj [("custom_id", JValue.jstr "a_line_3")],
         shapeAEnvelope "a_line_4" "not json \x7b"]).empty_extractions = 1 ∧
    (Mismatch.analyze_file_entries
        [JValue.jobj [("custom_id", JValue.jstr "a_line_3")],
         shapeAEnvelope "a_line_4" "not json \x7b"]).failed_extractions = 0 ∧
    (Mismatch.analyze_file_entries
        [JValue.jobj [("custom_id", JValue.jstr "a_line_3")],
         shapeAEnvelope "a_line_4" "not json \x7b"]).successful_extractions = 1 :=
  ⟨rfl, rfl, rfl⟩

theorem analyzeStep_tallies (a : Mismatch.FileAnalysis) (counts : List (Nat × Nat))
    (i : Nat) (r : JValue) :
    (Mismatch.analyzeStep a counts i r).1.successful_extractions
        + (Mismatch.analyzeStep a counts i r).1.failed_extractions
        + (Mismatch.analyzeStep a counts i r).1.empty_extractions
      = a.successful_extractions + a.failed_extractions + a.empty_extractions + 1 ∧
    (Mismatch.analyzeStep a counts i r).1.total_entries = a.total_entries := by
  unfold Mismatch.analyzeStep
  cases he : Mismatch.extract_line_number_from_custom_id
      (getCustomId r ("unknown_" ++ ⟨natToDigits i⟩)) <;>
    simp only [he] <;> split <;> try split
  all_goals refine ⟨?_, rfl⟩
  all_goals try simp
  all_goals omega

theorem analyzeGo_tallies (rs : List JValue) :
    ∀ (a : Mismatch.FileAnalysis) (counts : List (Nat × Nat)) (i : Nat),
      (Mismatch.analyzeGo a counts i rs).1.successful_extractions
          + (Mismatch.analyzeGo a counts i rs).1.failed_extractions
          + (Mismatch.analyzeGo a counts i rs).1.empty_extractions
        = a.successful_extractions + a.failed_extractions + a.empty_extractions + rs.length ∧
      (Mismatch.analyzeGo a counts i rs).1.total_entries = a.total_entries := by
  induction rs with
  | nil => intro a counts i; exact ⟨by simp [Mismatch.analyzeGo], rfl⟩
  | cons r rest ih =>
    intro a counts i
    rw [Mismatch.analyzeGo]
    obtain ⟨h1, h2⟩ := ih (Mismatch.analyzeStep a counts i r).1
      (Mismatch.analyzeStep a counts i r).2 (i + 1)
    obtain ⟨h3, h4⟩ := analyzeStep_tallies a counts i r
    refine ⟨?_, by rw [h2, h4]⟩
    rw [h1, h3]
    simp
    omega

/-- **C8 (amended)**: the three extraction tallies partition the entries —
every entry is counted in exactly one of `successful_extractions`,
`failed_extractions`, `empty_extractions` (so the tallies are disjoint
and sum to `total_entries`); an envelope on which the shape navigation
falls through (structurally absent) resolves to `""` and is therefore
tallied as *empty*, while only an exception escaping the inner parse
logic (reported as `ERROR_EXTRACTING...`) lands in the error tally. -/
theorem C8_amended_tallies_partition :
    (∀ rs : List JValue,
      (Mismatch.analyze_file_entries rs).successful_extractions
          + (Mismatch.analyze_file_entries rs).failed_extractions
          + (Mismatch.analyze_file_entries rs).empty_extractions
        = (Mismatch.analyze_file_entries rs).total_entries) ∧
    (∀ v : JValue, Mismatch.shapeACandidate v = .skip →
      Mismatch.extract_text_from_result v = "") ∧
    (∀ (v : JValue) (msg : String), Mismatch.shapeACandidate v = .exn msg →
      "ERROR_EXTRACTING".data.isPrefixOf
        (Mismatch.extract_text_from_result v).data = true) := by
  refine ⟨fun rs => ?_, fun v h => ?_, fun v msg h => ?_⟩
  · unfold Mismatch.analyze_file_entries
    obtain ⟨h1, h2⟩ := analyzeGo_tallies rs ⟨rs.length, ∅, [], 0, 0, 0, [], [], []⟩ [] 0
    dsimp only at h1 h2 ⊢
    rw [h1, h2]
    omega
  · unfold Mismatch.extract_text_from_result
    simp only [h]
  · unfold Mismatch.extract_text_from_result
    simp only [h]
    have hd : (("ERROR_EXTRACTING: " ++ msg)).data
        = "ERROR_EXTRACTING".data ++ (": ".data ++ msg.data) := by
      cases msg with
      | mk data => rfl
    rw [hd]
    exact isPrefixOf_append_self _ _

/-- Witness for the amended C8: a structurally absent envelope resolves to
`""` (empty tally) and a navigation exception yields an
`ERROR_EXTRACTING` value (error tally). -/
theorem C8_amended_witness :
    Mismatch.extract_text_from_result (JValue.jobj []) = "" ∧
    "ERROR_EXTRACTING".data.isPrefixOf
      (Mismatch.extract_text_from_result (JValue.jobj [("response", JValue.jnum 5)])).data
      = true :=
  ⟨C8_amended_tallies_partition.2.1 (JValue.jobj []) rfl,
   C8_amended_tallies_partition.2.2 (JValue.jobj [("response", JValue.jnum 5)])
     "TypeError" rfl⟩

/-! ## C9 -/

namespace Mismatch

/-- The key set as seen by the loop of `find_gaps_and_ranges` mid-run: the
contiguous run `[start, prev]` already merged, plus the unprocessed tail. -/
def loopMem (start prev : Nat) (rest : List Nat) (k : Nat) : Prop :=
  (start ≤ k ∧ k ≤ prev) ∨ k ∈ rest

/-- The maximum of the keys still governed by the loop (`sorted_lines[-1]`
once specialised to a sorted tail). -/
def loopMax (prev : Nat) (rest : List Nat) : Nat :=
  (prev :: rest).getLast (List.cons_ne_nil _ _)

theorem loopMax_nil (prev : Nat) : loopMax prev [] = prev := rfl

theorem loopMax_cons (prev c : Nat) (r : List Nat) :
    loopMax prev (c :: r) = loopMax c r := rfl

theorem le_loopMax_of_mem {prev : Nat} {rest : List Nat}
    (hs : List.Sorted (· < ·) (prev :: rest)) :
    ∀ x, x = prev ∨ x ∈ rest → x ≤ loopMax prev rest := by
  induction rest generalizing prev with
  | nil =>
    rintro x (rfl | hx)
    · exact Nat.le_refl x
    · simp at hx
  | cons c r ih =>
    rcases List.sorted_cons.mp hs with ⟨hlt, hs'⟩
    rintro x (rfl | hx)
    · rw [loopMax_cons]
      have hc : c ≤ loopMax c r := ih hs' c (Or.inl rfl)
      have := hlt c (List.mem_cons_self c r)
      omega
    · rw [loopMax_cons]
      rcases List.mem_cons.mp hx with rfl | hx'
      · exact ih hs' x (Or.inl rfl)
      · exact ih hs' x (Or.inr hx')

theorem head_le_loopMax {prev : Nat} {rest : List Nat}
    (hs : List.Sorted (· < ·) (prev :: rest)) : prev ≤ loopMax prev rest :=
  le_loopMax_of_mem hs prev (Or.inl rfl)

theorem loopMax_mem (prev : Nat) (rest : List Nat) :
    loopMax prev rest = prev ∨ loopMax prev rest ∈ rest := by
  have h := List.getLast_mem (l := prev :: rest) (List.cons_ne_nil _ _)
  rcases List.mem_cons.mp h with he | hm
  · exact Or.inl he
  · exact Or.inr hm

/-- Everything the `(ranges, gaps)` pair accumulated by `gapsLoop` satisfies
relative to the loop's key set: ranges are present runs covering every key,
maximal on both sides; gaps are absent runs inside the span with present
neighbours, covering every absent key; both lists are strictly separated. -/
structure GapsLoopOk (start prev : Nat) (rest : List Nat)
    (out : List (Nat × Nat) × List (Nat × Nat)) : Prop where
  ranges_bounds : ∀ p ∈ out.1, start ≤ p.1 ∧ p.1 ≤ p.2 ∧ p.2 ≤ loopMax prev rest
  ranges_mem : ∀ p ∈ out.1, ∀ k, p.1 ≤ k → k ≤ p.2 → loopMem start prev rest k
  ranges_cover : ∀ k, loopMem start prev rest k → ∃ p ∈ out.1, p.1 ≤ k ∧ k ≤ p.2
  ranges_max_left : ∀ p ∈ out.1, p.1 = start ∨ ¬ loopMem start prev rest (p.1 - 1)
  ranges_max_right : ∀ p ∈ out.1,
    p.2 = loopMax prev rest ∨ ¬ loopMem start prev rest (p.2 + 1)
  gaps_bounds : ∀ g ∈ out.2, start < g.1 ∧ g.1 ≤ g.2 ∧ g.2 < loopMax prev rest
  gaps_absent : ∀ g ∈ out.2, ∀ k, g.1 ≤ k → k ≤ g.2 → ¬ loopMem start prev rest k
  gaps_adjacent : ∀ g ∈ out.2,
    loopMem start prev rest (g.1 - 1) ∧ loopMem start prev rest (g.2 + 1)
  gaps_cover : ∀ k, start ≤ k → k ≤ loopMax prev rest →
    ¬ loopMem start prev rest k → ∃ g ∈ out.2, g.1 ≤ k ∧ k ≤ g.2
  ranges_sep : out.1.Pairwise (fun p q => p.2 + 1 < q.1)
  gaps_sep : out.2.Pairwise (fun p q => p.2 + 1 < q.1)

/-- Transport of the loop invariant along an equivalent description of the
same key set (used for the `current = prev + 1` run-extension step). -/
theorem GapsLoopOk.congr {start prev rest prev' rest' out}
    (hmem : ∀ k, loopMem start prev' rest' k ↔ loopMem start prev rest k)
    (hmax : loopMax prev' rest' = loopMax prev rest)
    (h : GapsLoopOk start prev' rest' out) : GapsLoopOk start prev rest out where
  ranges_bounds p hp := hmax ▸ h.ranges_bounds p hp
  ranges_mem p hp k h1 h2 := (hmem k).mp (h.ranges_mem p hp k h1 h2)
  ranges_cover k hk := h.ranges_cover k ((hmem k).mpr hk)
  ranges_max_left p hp := (h.ranges_max_left p hp).imp id fun hn hm => hn ((hmem _).mpr hm)
  ranges_max_right p hp := (h.ranges_max_right p hp).imp (fun e => hmax ▸ e)
    fun hn hm => hn ((hmem _).mpr hm)
  gaps_bounds g hg := hmax ▸ h.gaps_bounds g hg
  gaps_absent g hg k h1 h2 hm := h.gaps_absent g hg k h1 h2 ((hmem k).mpr hm)
  gaps_adjacent g hg :=
    ⟨(hmem _).mp (h.gaps_adjacent g hg).1, (hmem _).mp (h.gaps_adjacent g hg).2⟩
  gaps_cover k h1 h2 hn := h.gaps_cover k h1 (hmax ▸ h2) fun hm => hn ((hmem k).mp hm)
  ranges_sep := h.ranges_sep
  gaps_sep := h.gaps_sep

/-- The loop invariant of `find_gaps_and_ranges`, by induction on the
sorted tail. -/
theorem gapsLoop_ok : ∀ (rest : List Nat) (start prev : Nat), start ≤ prev →
    List.Sorted (· < ·) (prev :: rest) →
    GapsLoopOk start prev rest (gapsLoop start prev rest) := by
  intro rest
  induction rest with
  | nil =>
    intro start prev hsp _
    rw [gapsLoop]
    exact {
      ranges_bounds := by
        intro p hp
        simp only [List.mem_singleton] at hp
        subst hp
        exact ⟨Nat.le_refl _, hsp, Nat.le_refl _⟩
      ranges_mem := by
        intro p hp k h1 h2
        simp only [List.mem_singleton] at hp
        subst hp
        exact Or.inl ⟨h1, h2⟩
      ranges_cover := by
        intro k hk
        rcases hk with ⟨h1, h2⟩ | hk
        · exact ⟨(start, prev), List.mem_singleton_self _, h1, h2⟩
        · simp at hk
      ranges_max_left := by
        intro p hp
        simp only [List.mem_singleton] at hp
        subst hp
        exact Or.inl rfl
      ranges_max_right := by
        intro p hp
        simp only [List.mem_singleton] at hp
        subst hp
        exact Or.inl rfl
      gaps_bounds := by intro g hg; simp at hg
      gaps_absent := by intro g hg; simp at hg
      gaps_adjacent := by intro g hg; simp at hg
      gaps_cover := by
        intro k h1 h2 hn
        exact absurd (Or.inl ⟨h1, h2⟩) hn
      ranges_sep := List.pairwise_singleton _ _
      gaps_sep := List.Pairwise.nil }
  | cons current rest' ih =>
    intro start prev hsp hsort
    rcases List.sorted_cons.mp hsort with ⟨hlt, hsort'⟩
    have hpc : prev < current := hlt current (List.mem_cons_self _ _)
    have hrest' : ∀ x ∈ rest', current < x := (List.sorted_cons.mp hsort').1
    rw [gapsLoop]
    by_cases hc : current = prev + 1
    · rw [if_neg (not_not_intro hc)]
      refine GapsLoopOk.congr ?_ ?_ (ih start current (by omega) hsort')
      · intro k
        subst hc
        simp only [loopMem, List.mem_cons]
        constructor
        · rintro (⟨h1, h2⟩ | hm)
          · rcases Nat.eq_or_lt_of_le h2 with he | hl2
            · exact Or.inr (Or.inl he)
            · exact Or.inl ⟨h1, by omega⟩
          · exact Or.inr (Or.inr hm)
        · rintro (⟨h1, h2⟩ | rfl | hm)
          · exact Or.inl ⟨h1, by omega⟩
          · exact Or.inl ⟨by omega, Nat.le_refl _⟩
          · exact Or.inr hm
      · exact (loopMax_cons prev current rest').symm
    · have h2p : prev + 2 ≤ current := by omega
      rw [if_pos hc, if_pos (by omega : 1 < current - prev)]
      have OK' : GapsLoopOk current current rest' (gapsLoop current current rest') :=
        ih current current (Nat.le_refl _) hsort'
      have hMge : current ≤ loopMax current rest' := head_le_loopMax hsort'
      have hmemB : ∀ k, loopMem start prev (current :: rest') k ↔
          ((start ≤ k ∧ k ≤ prev) ∨ loopMem current current rest' k) := by
        intro k
        simp only [loopMem, List.mem_cons]
        constructor
        · rintro (h | rfl | h)
          · exact Or.inl h
          · exact Or.inr (Or.inl ⟨Nat.le_refl _, Nat.le_refl _⟩)
          · exact Or.inr (Or.inr h)
        · rintro (h | ⟨h1, h2⟩ | h)
          · exact Or.inl h
          · exact Or.inr (Or.inl (Nat.le_antisymm h2 h1))
          · exact Or.inr (Or.inr h)
      have habsent : ∀ k, prev + 1 ≤ k → k ≤ current - 1 →
          ¬ loopMem start prev (current :: rest') k := by
        rintro k hk1 hk2 (⟨h1, h2⟩ | hm)
        · omega
        · rcases List.mem_cons.mp hm with rfl | hm'
          · omega
          · have := hrest' k hm'
            omega
      refine { ranges_bounds := ?_, ranges_mem := ?_, ranges_cover := ?_,
               ranges_max_left := ?_, ranges_max_right := ?_, gaps_bounds := ?_,
               gaps_absent := ?_, gaps_adjacent := ?_, gaps_cover := ?_,
               ranges_sep := ?_, gaps_sep := ?_ }
      · rintro p hp
        rcases List.mem_cons.mp hp with rfl | hp'
        · refine ⟨Nat.le_refl _, hsp, ?_⟩
          rw [loopMax_cons]
          omega
        · obtain ⟨b1, b2, b3⟩ := OK'.ranges_bounds p hp'
          refine ⟨by omega, b2, ?_⟩
          rw [loopMax_cons]
          exact b3
      · rintro p hp k h1 h2
        rcases List.mem_cons.mp hp with rfl | hp'
        · exact Or.inl ⟨h1, h2⟩
        · exact (hmemB k).mpr (Or.inr (OK'.ranges_mem p hp' k h1 h2))
      · intro k hk
        rcases (hmemB k).mp hk with ⟨h1, h2⟩ | hk'
        · exact ⟨(start, prev), List.mem_cons_self _ _, h1, h2⟩
        · obtain ⟨p, hp, hc1, hc2⟩ := OK'.ranges_cover k hk'
          exact ⟨p, List.mem_cons_of_mem _ hp, hc1, hc2⟩
      · rintro p hp
        rcases List.mem_cons.mp hp with rfl | hp'
        · exact Or.inl rfl
        · have hpb := (OK'.ranges_bounds p hp').1
          rcases OK'.ranges_max_left p hp' with he | hn
          · rw [he]
            exact Or.inr (habsent (current - 1) (by omega) (by omega))
          · refine Or.inr fun hm => ?_
            rcases (hmemB _).mp hm with ⟨hh1, hh2⟩ | hm'
            · omega
            · exact hn hm'
      · rintro p hp
        rcases List.mem_cons.mp hp with rfl | hp'
        · exact Or.inr (habsent (prev + 1) (by omega) (by omega))
        · have hpb := OK'.ranges_bounds p hp'
          rcases OK'.ranges_max_right p hp' with he | hn
          · refine Or.inl ?_
            rw [loopMax_cons]
            exact he
          · refine Or.inr fun hm => ?_
            rcases (hmemB _).mp hm with ⟨hh1, hh2⟩ | hm'
            · have hb1 := hpb.1
              have hb2 := hpb.2.1
              omega
            · exact hn hm'
      · rintro g hg
        rcases List.mem_cons.mp hg with rfl | hg'
        · refine ⟨by omega, by omega, ?_⟩
          rw [loopMax_cons]
          omega
        · obtain ⟨b1, b2, b3⟩ := OK'.gaps_bounds g hg'
          refine ⟨by omega, b2, ?_⟩
          rw [loopMax_cons]
          exact b3
      · rintro g hg k h1 h2
        rcases List.mem_cons.mp hg with rfl | hg'
        · exact habsent k h1 h2
        · intro hm
          have hb1 := (OK'.gaps_bounds g hg').1
          rcases (hmemB k).mp hm with ⟨hh1, hh2⟩ | hm'
          · omega
          · exact OK'.gaps_absent g hg' k h1 h2 hm'
      · rintro g hg
        rcases List.mem_cons.mp hg with rfl | hg'
        · constructor
          · exact Or.inl ⟨hsp, by omega⟩
          · have hcur : current - 1 + 1 = current := by omega
            rw [hcur]
            exact (hmemB current).mpr (Or.inr (Or.inl ⟨Nat.le_refl _, Nat.le_refl _⟩))
        · obtain ⟨ha1, ha2⟩ := OK'.gaps_adjacent g hg'
          exact ⟨(hmemB _).mpr (Or.inr ha1), (hmemB _).mpr (Or.inr ha2)⟩
      · intro k h1 h2 hn
        by_cases hk1 : k ≤ prev
        · exact absurd (Or.inl ⟨h1, hk1⟩) hn
        · by_cases hk2 : k ≤ current - 1
          · exact ⟨(prev + 1, current - 1), List.mem_cons_self _ _, by omega, hk2⟩
          · have hkc : current ≤ k := by omega
            have h2' : k ≤ loopMax current rest' := by
              rw [loopMax_cons] at h2
              exact h2
            obtain ⟨g, hg, hg1, hg2⟩ := OK'.gaps_cover k hkc h2'
              fun hm => hn ((hmemB k).mpr (Or.inr hm))
            exact ⟨g, List.mem_cons_of_mem _ hg, hg1, hg2⟩
      · refine List.Pairwise.cons ?_ OK'.ranges_sep
        intro p hp
        have hb := (OK'.ranges_bounds p hp).1
        show prev + 1 < p.1
        omega
      · refine List.Pairwise.cons ?_ OK'.gaps_sep
        intro g hg
        have hb := (OK'.gaps_bounds g hg).1
        show current - 1 + 1 < g.1
        omega

end Mismatch

/-- Full correctness of the gap report of a nonempty key set `S`: `min`/`max`
are the least and greatest keys; the span statistics equal
`(max − min + 1)` and `|S|` with `missing_count` their difference; `ranges`
are maximal present runs covering every key; `gaps` are maximal absent runs
within the span, with present neighbours, covering every absent key; both
lists are strictly separated (so each maximal run is reported exactly
once). -/
def GapReportCorrect (S : Finset Nat) : Prop :=
  ∃ m M : Nat,
    (Mismatch.find_gaps_and_ranges S).min? = some m ∧
    (Mismatch.find_gaps_and_ranges S).max? = some M ∧
    m ∈ S ∧ M ∈ S ∧ (∀ k ∈ S, m ≤ k ∧ k ≤ M) ∧
    (Mismatch.find_gaps_and_ranges S).total_expected = some (M - m + 1) ∧
    (Mismatch.find_gaps_and_ranges S).total_actual = some S.card ∧
    (Mismatch.find_gaps_and_ranges S).missing_count = some ((M - m + 1) - S.card) ∧
    (∀ p ∈ (Mismatch.find_gaps_and_ranges S).ranges,
      m ≤ p.1 ∧ p.1 ≤ p.2 ∧ p.2 ≤ M ∧
      (∀ k, p.1 ≤ k → k ≤ p.2 → k ∈ S) ∧
      (p.1 = m ∨ (p.1 - 1) ∉ S) ∧ (p.2 = M ∨ (p.2 + 1) ∉ S)) ∧
    (∀ k ∈ S, ∃ p ∈ (Mismatch.find_gaps_and_ranges S).ranges, p.1 ≤ k ∧ k ≤ p.2) ∧
    (Mismatch.find_gaps_and_ranges S).ranges.Pairwise (fun p q => p.2 + 1 < q.1) ∧
    (∀ g ∈ (Mismatch.find_gaps_and_ranges S).gaps,
      m < g.1 ∧ g.1 ≤ g.2 ∧ g.2 < M ∧
      (∀ k, g.1 ≤ k → k ≤ g.2 → k ∉ S) ∧ (g.1 - 1) ∈ S ∧ (g.2 + 1) ∈ S) ∧
    (∀ k, m ≤ k → k ≤ M → k ∉ S →
      ∃ g ∈ (Mismatch.find_gaps_and_ranges S).gaps, g.1 ≤ k ∧ k ≤ g.2) ∧
    (Mismatch.find_gaps_and_ranges S).gaps.Pairwise (fun p q => p.2 + 1 < q.1)

/-- **C9**: for every non-empty set of record keys, the contiguous-range gap
analysis over the span `[min, max]` reports exactly the maximal runs of
consecutive absent keys, each compressed into one `(start, end)` gap range,
and the maximal runs of consecutive present keys as ranges, with the
missing count equal to `(max − min + 1)` minus the number of distinct
keys. -/
theorem C9_gap_range_analysis (S : Finset Nat) (hS : S.Nonempty) :
    GapReportCorrect S := by
  obtain ⟨s0, rest, h⟩ : ∃ s0 rest, sortKeys S = s0 :: rest := by
    cases hsk : sortKeys S with
    | nil =>
      exfalso
      have hlen := length_sortKeys S
      rw [hsk] at hlen
      simp at hlen
      exact hS.card_ne_zero hlen.symm
    | cons a l => exact ⟨a, l, rfl⟩
  have hsorted : List.Sorted (· < ·) (s0 :: rest) := by
    have hs := sortKeys_sorted_lt S
    rw [h] at hs
    exact hs
  have hmem : ∀ k, Mismatch.loopMem s0 s0 rest k ↔ k ∈ S := by
    intro k
    rw [← mem_sortKeys (s := S), h, List.mem_cons]
    simp only [Mismatch.loopMem]
    constructor
    · rintro (⟨h1, h2⟩ | hm)
      · exact Or.inl (Nat.le_antisymm h2 h1)
      · exact Or.inr hm
    · rintro (rfl | hm)
      · exact Or.inl ⟨Nat.le_refl _, Nat.le_refl _⟩
      · exact Or.inr hm
  have hR : Mismatch.find_gaps_and_ranges S =
      ⟨(Mismatch.gapsLoop s0 s0 rest).1, (Mismatch.gapsLoop s0 s0 rest).2,
        some s0, some (Mismatch.loopMax s0 rest),
        some (Mismatch.loopMax s0 rest - s0 + 1), some S.card,
        some ((Mismatch.loopMax s0 rest - s0 + 1) - S.card)⟩ := by
    unfold Mismatch.find_gaps_and_ranges
    rw [h]
    rfl
  have OK : Mismatch.GapsLoopOk s0 s0 rest (Mismatch.gapsLoop s0 s0 rest) :=
    Mismatch.gapsLoop_ok rest s0 s0 (Nat.le_refl _) hsorted
  refine ⟨s0, Mismatch.loopMax s0 rest, ?_, ?_, ?_, ?_, ?_, ?_, ?_, ?_, ?_, ?_, ?_,
    ?_, ?_, ?_⟩
  · rw [hR]
  · rw [hR]
  · exact (hmem s0).mp (Or.inl ⟨Nat.le_refl _, Nat.le_refl _⟩)
  · rcases Mismatch.loopMax_mem s0 rest with he | hm
    · rw [he]
      exact (hmem s0).mp (Or.inl ⟨Nat.le_refl _, Nat.le_refl _⟩)
    · exact (hmem _).mp (Or.inr hm)
  · intro k hk
    have hlm := (hmem k).mpr hk
    constructor
    · rcases hlm with ⟨h1, _⟩ | hm
      · exact h1
      · exact Nat.le_of_lt ((List.sorted_cons.mp hsorted).1 k hm)
    · refine Mismatch.le_loopMax_of_mem hsorted k ?_
      rcases hlm with ⟨h1, h2⟩ | hm
      · exact Or.inl (Nat.le_antisymm h2 h1)
      · exact Or.inr hm
  · rw [hR]
  · rw [hR]
  · rw [hR]
  · intro p hp
    rw [hR] at hp
    have hp' : p ∈ (Mismatch.gapsLoop s0 s0 rest).1 := hp
    obtain ⟨b1, b2, b3⟩ := OK.ranges_bounds p hp'
    refine ⟨b1, b2, b3, ?_, ?_, ?_⟩
    · intro k h1 h2
      exact (hmem k).mp (OK.ranges_mem p hp' k h1 h2)
    · rcases OK.ranges_max_left p hp' with he | hn
      · exact Or.inl he
      · exact Or.inr fun hin => hn ((hmem _).mpr hin)
    · rcases OK.ranges_max_right p hp' with he | hn
      · exact Or.inl he
      · exact Or.inr fun hin => hn ((hmem _).mpr hin)
  · intro k hk
    obtain ⟨p, hp, h1, h2⟩ := OK.ranges_cover k ((hmem k).mpr hk)
    rw [hR]
    exact ⟨p, hp, h1, h2⟩
  · rw [hR]
    exact OK.ranges_sep
  · intro g hg
    rw [hR] at hg
    have hg' : g ∈ (Mismatch.gapsLoop s0 s0 rest).2 := hg
    obtain ⟨b1, b2, b3⟩ := OK.gaps_bounds g hg'
    refine ⟨b1, b2, b3, ?_, ?_, ?_⟩
    · intro k h1 h2 hin
      exact OK.gaps_absent g hg' k h1 h2 ((hmem k).mpr hin)
    · exact (hmem _).mp (OK.gaps_adjacent g hg').1
    · exact (hmem _).mp (OK.gaps_adjacent g hg').2
  · intro k h1 h2 hn
    obtain ⟨g, hg, hg1, hg2⟩ := OK.gaps_cover k h1 h2 fun hm => hn ((hmem k).mp hm)
    rw [hR]
    exact ⟨g, hg, hg1, hg2⟩
  · rw [hR]
    exact OK.gaps_sep

/-- Witness for C9 at `S = {1, 2, 3, 5}`, together with the concrete report
contents at that input. -/
theorem C9_witness :
    GapReportCorrect {1, 2, 3, 5} ∧
    (Mismatch.find_gaps_and_ranges {1, 2, 3, 5}).ranges = [(1, 3), (5, 5)] ∧
    (Mismatch.find_gaps_and_ranges {1, 2, 3, 5}).gaps = [(4, 4)] ∧
    (Mismatch.find_gaps_and_ranges {1, 2, 3, 5}).missing_count = some 1 :=
  ⟨C9_gap_range_analysis {1, 2, 3, 5} (by decide), rfl, rfl, rfl⟩

end Polyglot
